import Mathlib

/-!
# printk: the low-level formatted output of the kernel (`lib/os/printk.c`)

A shallow embedding of the format interpreter `z_vprintk`, of the two numeric
converters `_printk_dec_ulong` and `_printk_hex_ulong`, of the bounded buffer
entry point `snprintk`, of the two output paths of `vprintk`, and of the fatal
error handler `z_NanoFatalErrorHandler` (`arch/arm/core/fatal.c`) that prints
through `printk`, followed by theorems about them.

Conventions of the embedding.

* A C character handed to `out` is an `Int` (the parameter of `out` is an
  `int`).  A template, and a string argument, is the list of its characters;
  scanning stops at the first `0` or at the end of the list, which stands for
  the terminating NUL.
* `z_vprintk` calls `out` once for every emitted character, in order, and
  never looks at what `out` returns or at the context.  The embedding of the
  interpreter therefore returns the list of the characters handed to `out`,
  and an output routine (`str_out`, `buf_char_out`, `char_out`) is folded over
  that list.
* Arithmetic on `int` variables is arithmetic on `Int` (signed overflow is
  undefined in C, it is not modelled).  Conversions between integer types are
  explicit: `to_int`, `to_long`, `to_ulong`, ... reduce modulo `2 ^ width`.
* `CONFIG_64BIT` is a parameter `c64 : Bool`; `long`, `size_t` and pointers
  have 64 bits when it is set and 32 bits otherwise, `int` has 32 bits and
  `long long` 64 bits.
* A `va_list` is a list of arguments.  Reading an argument of the wrong class
  (a string where a number is expected, or no argument at all) is undefined
  behaviour in C: the interpreter then yields `none`.
-/

namespace Printk

/-! ## Characters and integer conversions -/

/-- Characters of a string literal as C character codes. -/
def cstr (s : String) : List Int := s.toList.map (fun ch => (ch.toNat : Int))

/-- Conversion to `int` (32 bits, two's complement). -/
def to_int (n : Int) : Int := (n + 2 ^ 31) % 2 ^ 32 - 2 ^ 31

/-- Conversion to `unsigned int` (32 bits). -/
def to_uint (n : Int) : Nat := (n % 2 ^ 32).toNat

/-- Conversion to `long long` (64 bits, two's complement). -/
def to_llong (n : Int) : Int := (n + 2 ^ 63) % 2 ^ 64 - 2 ^ 63

/-- Conversion to `unsigned long long` (64 bits). -/
def to_ullong (n : Int) : Nat := (n % 2 ^ 64).toNat

/-- Number of bits of `long`, `unsigned long`, `size_t` and `uintptr_t`. -/
def LONG_BITS (c64 : Bool) : Nat := if c64 then 64 else 32

/-- The constant `__LONG_MAX__`. -/
def LONG_MAX (c64 : Bool) : Int := 2 ^ (LONG_BITS c64 - 1) - 1

/-- The constant `~0UL`. -/
def ULONG_MAX (c64 : Bool) : Nat := 2 ^ LONG_BITS c64 - 1

/-- Conversion to `long`. -/
def to_long (c64 : Bool) (n : Int) : Int :=
  (n + 2 ^ (LONG_BITS c64 - 1)) % 2 ^ LONG_BITS c64 - 2 ^ (LONG_BITS c64 - 1)

/-- Conversion to `unsigned long` (also `size_t` and `uintptr_t`). -/
def to_ulong (c64 : Bool) (n : Int) : Nat := (n % 2 ^ LONG_BITS c64).toNat

/-- Conversion to `char` when a character is stored in a buffer: the low
eight bits. -/
def to_char (n : Int) : Int := n % 256

/-! ## The numeric converters -/

/-- The `enum pad_type`. -/
inductive pad_type where
  | PAD_NONE
  | PAD_ZERO_BEFORE
  | PAD_SPACE_BEFORE
  | PAD_SPACE_AFTER
  deriving DecidableEq, Repr

open pad_type

/-- Numeric value of an enumerator of `pad_type`. -/
def pad_type.val : pad_type → Nat
  | PAD_NONE => 0
  | PAD_ZERO_BEFORE => 1
  | PAD_SPACE_BEFORE => 2
  | PAD_SPACE_AFTER => 3

/-- The loop `while (remaining-- > 0) { out(' ', ctx); }`. -/
def pad_spaces (remaining : Int) : List Int := List.replicate remaining.toNat 32

/-- The function `print_err`. -/
def print_err : List Int := [69, 82, 82]

/-- The loop `while (pos >= 9)` of `_printk_dec_ulong`, from the state
`pos`, `remainder`, `found_largest_digit`, `remaining`, `digits`; it returns
the characters emitted and the final `remainder` and `digits`.  The first
argument bounds the number of iterations (nine are run from
`pos = 999999999`). -/
def dec_loop (padding : pad_type) (min_width : Int) :
    Nat → Nat → Nat → Bool → Int → Int → List Int × Nat × Int
  | 0, _, remainder, _, _, digits => ([], remainder, digits)
  | fuel + 1, pos, remainder, found_largest_digit, remaining, digits =>
    if pos ≥ 9 then
      if found_largest_digit ∨ remainder > pos then
        let r := dec_loop padding min_width fuel (pos / 10) (remainder % (pos + 1)) true
          (remaining - 1) (digits + 1)
        (to_int ((remainder / (pos + 1) + 48 : Nat) : Int) :: r.1, r.2)
      else if remaining ≤ min_width ∧ padding.val < PAD_SPACE_AFTER.val then
        let r := dec_loop padding min_width fuel (pos / 10) (remainder % (pos + 1))
          found_largest_digit (remaining - 1) (digits + 1)
        ((if padding = PAD_ZERO_BEFORE then 48 else 32) :: r.1, r.2)
      else
        dec_loop padding min_width fuel (pos / 10) (remainder % (pos + 1))
          found_largest_digit (remaining - 1) digits
    else ([], remainder, digits)

/-- The function `_printk_dec_ulong`: the characters it hands to `out`. -/
def _printk_dec_ulong (num : Nat) (padding : pad_type) (min_width : Int) : List Int :=
  let min_width := if min_width ≤ 0 then 1 else min_width
  let r := dec_loop padding min_width 10 999999999 num false 10 1
  r.1 ++ [to_int ((r.2.1 + 48 : Nat) : Int)] ++
    (if padding = PAD_SPACE_AFTER then pad_spaces (min_width - r.2.2) else [])

/-- The loop `for (; size != 0; size--)` of `_printk_hex_ulong`, from the
state `size`, `found_largest_digit`, `remaining`, `digits`; it returns the
characters emitted and the final `digits`. -/
def hex_loop (num : Nat) (padding : pad_type) (min_width : Int) :
    Nat → Bool → Int → Int → List Int × Int
  | 0, _, _, digits => ([], digits)
  | size + 1, found_largest_digit, remaining, digits =>
    let nibble := (num >>> ((size + 1 - 1) <<< 2)) &&& 0xf
    if nibble ≠ 0 ∨ found_largest_digit ∨ size + 1 = 1 then
      let r := hex_loop num padding min_width size true remaining (digits + 1)
      (((nibble + (if nibble > 9 then 87 else 48) : Nat) : Int) :: r.1, r.2)
    else
      let r := hex_loop num padding min_width size found_largest_digit (remaining - 1) digits
      ((if remaining ≤ min_width then
          (if padding = PAD_ZERO_BEFORE then [48]
           else if padding = PAD_SPACE_BEFORE then [32] else [])
        else []) ++ r.1, r.2)

/-- The function `_printk_hex_ulong`: the characters it hands to `out`. -/
def _printk_hex_ulong (num : Nat) (padding : pad_type) (min_width : Int) : List Int :=
  let r := hex_loop num padding min_width 16 false 16 0
  r.1 ++ (if padding = PAD_SPACE_AFTER then pad_spaces (min_width * 2 - r.2) else [])

/-! ## The format interpreter -/

/-- One variadic argument.  An integer argument carries its value; `va_arg`
at an integer type converts the value to that type, which is the identity for
an argument of that type.  A `double` argument is represented by the two
`long` values the interpreter derives from it: `(long)d` and
`(long)((d - (long)d) * 1000)` (floating point arithmetic itself is not
modelled). -/
inductive Arg where
  | int (v : Int)
  | ptr (p : Nat)
  | str (s : List Int)
  | dbl (whole : Int) (frac : Int)

/-- A `va_list`: the arguments not yet consumed. -/
abbrev va_list := List Arg

/-- The call `va_arg(ap, T)` for an integer type `T`: the value before
conversion to `T`. -/
def va_arg_int : va_list → Option (Int × va_list)
  | Arg.int v :: ap => some (v, ap)
  | _ => none

/-- The call `va_arg(ap, void *)`. -/
def va_arg_ptr : va_list → Option (Nat × va_list)
  | Arg.ptr p :: ap => some (p, ap)
  | _ => none

/-- The call `va_arg(ap, char *)`. -/
def va_arg_str : va_list → Option (List Int × va_list)
  | Arg.str s :: ap => some (s, ap)
  | _ => none

/-- The call `va_arg(ap, double)`. -/
def va_arg_double : va_list → Option ((Int × Int) × va_list)
  | Arg.dbl w f :: ap => some ((w, f), ap)
  | _ => none

/-- The local variables of `z_vprintk` that live across iterations. -/
structure fmt_state where
  might_format : Bool
  padding : pad_type
  min_width : Int
  length_mod : Int
  deriving DecidableEq, Repr

/-- The values of the locals at the entry of `z_vprintk`. -/
def fmt_state.init : fmt_state :=
  { might_format := false, padding := PAD_NONE, min_width := -1, length_mod := 0 }

/-- The end of the `switch`: a `break` followed by `might_format = 0`. -/
def fmt_state.done (st : fmt_state) : fmt_state := { st with might_format := false }

/-- The characters of a NUL-terminated string: `while (*s) { out(*s++) }`. -/
def c_string (s : List Int) : List Int := s.takeWhile (fun c => c ≠ 0)

/-- The cases `d` and `i` once the value `d` is known: sign, then the
decimal converter. -/
def signed_dec (c64 : Bool) (st : fmt_state) (d : Int) : List Int × fmt_state :=
  if d < 0 then
    (45 :: _printk_dec_ulong (to_ulong c64 (-d)) st.padding (st.min_width - 1),
      { st with min_width := st.min_width - 1 }.done)
  else
    (_printk_dec_ulong (to_ulong c64 d) st.padding st.min_width, st.done)

/-- The `switch (*fmt)` of directive mode for the character `c`, with the
assignment `might_format = 0` that follows it unless the case jumps to
`still_might_format`.  It returns the characters emitted, the new locals and
the remaining arguments. -/
def directive (c64 : Bool) (c : Int) (st : fmt_state) (ap : va_list) :
    Option (List Int × fmt_state × va_list) :=
  if c = 45 then                                        -- case '-'
    some ([], { st with padding := PAD_SPACE_AFTER }, ap)
  else if c = 48 ∧ st.min_width < 0 ∧ st.padding = PAD_NONE then       -- case '0'
    some ([], { st with padding := PAD_ZERO_BEFORE }, ap)
  else if 48 ≤ c ∧ c ≤ 57 then                          -- case '0' ... '9'
    let min_width := if st.min_width < 0 then c - 48 else 10 * st.min_width + c - 48
    let padding := if st.padding = PAD_NONE then PAD_SPACE_BEFORE else st.padding
    some ([], { st with min_width := min_width, padding := padding }, ap)
  else if c = 104 ∨ c = 108 ∨ c = 122 then              -- case 'h', 'l', 'z'
    if c = 104 ∧ st.length_mod = 104 then
      some ([], { st with length_mod := 72 }, ap)
    else if c = 108 ∧ st.length_mod = 108 then
      some ([], { st with length_mod := 76 }, ap)
    else if st.length_mod = 0 then
      some ([], { st with length_mod := c }, ap)
    else
      some ([37, c], st.done, ap)
  else if c = 100 ∨ c = 105 then                        -- case 'd', 'i'
    match va_arg_int ap with
    | none => none
    | some (v, ap) =>
      if st.length_mod = 122 then
        let r := signed_dec c64 st (to_int v)
        some (r.1, r.2, ap)
      else if st.length_mod = 108 then
        let r := signed_dec c64 st (to_long c64 v)
        some (r.1, r.2, ap)
      else if st.length_mod = 76 then
        let lld := to_llong v
        if lld > LONG_MAX c64 ∨ lld < -(LONG_MAX c64) - 1 then
          some (print_err, st.done, ap)
        else
          let r := signed_dec c64 st lld
          some (r.1, r.2, ap)
      else
        let r := signed_dec c64 st (to_int v)
        some (r.1, r.2, ap)
  else if c = 117 then                                  -- case 'u'
    match va_arg_int ap with
    | none => none
    | some (v, ap) =>
      if st.length_mod = 122 then
        some (_printk_dec_ulong (to_ulong c64 v) st.padding st.min_width, st.done, ap)
      else if st.length_mod = 108 then
        some (_printk_dec_ulong (to_ulong c64 v) st.padding st.min_width, st.done, ap)
      else if st.length_mod = 76 then
        let llu := to_ullong v
        if llu > ULONG_MAX c64 then
          some (print_err, st.done, ap)
        else
          some (_printk_dec_ulong llu st.padding st.min_width, st.done, ap)
      else
        some (_printk_dec_ulong (to_uint v) st.padding st.min_width, st.done, ap)
  else if c = 112 then                                  -- case 'p'
    match va_arg_ptr ap with
    | none => none
    | some (p, ap) =>
      let min_width : Int := if c64 then 16 else 8
      some ([48, 120] ++ _printk_hex_ulong (to_ulong c64 p) PAD_ZERO_BEFORE min_width,
        { st with padding := PAD_ZERO_BEFORE, min_width := min_width }.done, ap)
  else if c = 120 ∨ c = 88 then                         -- case 'x', 'X'
    match va_arg_int ap with
    | none => none
    | some (v, ap) =>
      let x : Nat :=
        if st.length_mod = 108 then to_ulong c64 v
        else if st.length_mod = 76 then to_ullong v
        else to_uint v
      some (_printk_hex_ulong x st.padding st.min_width, st.done, ap)
  else if c = 115 then                                  -- case 's'
    match va_arg_str ap with
    | none => none
    | some (s, ap) =>
      some (c_string s ++
        (if st.padding = PAD_SPACE_AFTER then
          pad_spaces (st.min_width - (c_string s).length) else []), st.done, ap)
  else if c = 99 then                                   -- case 'c'
    match va_arg_int ap with
    | none => none
    | some (v, ap) => some ([to_int v], st.done, ap)
  else if c = 102 then                                  -- case 'f'
    match va_arg_double ap with
    | none => none
    | some (d, ap) =>
      some (_printk_dec_ulong (to_ulong c64 d.1) st.padding st.min_width ++ [46] ++
        _printk_dec_ulong (to_ulong c64 d.2) PAD_NONE 0, st.done, ap)
  else if c = 37 then                                   -- case '%'
    some ([37], st.done, ap)
  else                                                  -- default
    some ([37, c], st.done, ap)

/-- One iteration of the loop `while (*fmt)` of `z_vprintk` for the character
`c = *fmt`. -/
def z_vprintk_step (c64 : Bool) (c : Int) (st : fmt_state) (ap : va_list) :
    Option (List Int × fmt_state × va_list) :=
  if st.might_format = false then
    if c ≠ 37 then
      some ([c], st, ap)
    else
      some ([], { might_format := true, min_width := -1, padding := PAD_NONE,
                  length_mod := 0 }, ap)
  else
    directive c64 c st ap

/-- The loop `while (*fmt)` of `z_vprintk`, from the locals `st`. -/
def z_vprintk_loop (c64 : Bool) : List Int → fmt_state → va_list → Option (List Int)
  | [], _, _ => some []
  | c :: fmt, st, ap =>
    if c = 0 then some []
    else
      match z_vprintk_step c64 c st ap with
      | none => none
      | some (o, st, ap) =>
        match z_vprintk_loop c64 fmt st ap with
        | none => none
        | some rest => some (o ++ rest)

/-- The function `z_vprintk`: the characters handed to `out`, in order. -/
def z_vprintk (c64 : Bool) (fmt : List Int) (ap : va_list) : Option (List Int) :=
  z_vprintk_loop c64 fmt fmt_state.init ap

/-! ## The bounded buffer entry points -/

/-- The `struct str_context`.  The field `str` is `none` for a NULL pointer
and otherwise the memory the pointer designates, as a function from the
offset to the byte stored there. -/
structure str_context where
  str : Option (Int → Int)
  max : Int
  count : Int

/-- The function `str_out`. -/
def str_out (c : Int) (ctx : str_context) : str_context :=
  match ctx.str with
  | none => { ctx with count := ctx.count + 1 }
  | some m =>
    if ctx.count ≥ ctx.max then
      { ctx with count := ctx.count + 1 }
    else if ctx.count = ctx.max - 1 then
      { ctx with str := some (Function.update m ctx.count 0), count := ctx.count + 1 }
    else
      { ctx with str := some (Function.update m ctx.count (to_char c)),
                 count := ctx.count + 1 }

/-- The calls of `str_out` made by the interpreter for the emitted characters
`o`, in order. -/
def str_out_all (o : List Int) (ctx : str_context) : str_context :=
  o.foldl (fun ctx c => str_out c ctx) ctx

/-- The functions `snprintk` and `vsnprintk` (their bodies are the same): the
returned count and the buffer afterwards.  The result is `none` when the
arguments do not fit the template, or when the final terminator would be
stored through a NULL pointer. -/
def snprintk (c64 : Bool) (str : Option (Int → Int)) (size : Nat) (fmt : List Int)
    (ap : va_list) : Option (Int × Option (Int → Int)) :=
  match z_vprintk c64 fmt ap with
  | none => none
  | some o =>
    let ctx := str_out_all o { str := str, max := to_int size, count := 0 }
    if ctx.count < ctx.max then
      match ctx.str with
      | none => none
      | some m => some (ctx.count, some (Function.update m ctx.count 0))
    else
      some (ctx.count, ctx.str)

/-! ## Definitions used to state the theorems -/

/-- The buffer after `str_out` has been called for every character of `o`,
starting from the context `{ str, max, 0 }` with `str` non-NULL. -/
def str_filled (m : Int → Int) (max : Int) (o : List Int) : Int → Int :=
  fun i =>
    if 0 ≤ i ∧ i < o.length ∧ i < max - 1 then to_char (o.getD i.toNat 0)
    else if i = max - 1 ∧ 0 ≤ i ∧ i < o.length then 0
    else m i

/-- The `k` low decimal digits of `r`, most significant first, as characters. -/
def fixed_dec : Nat → Nat → List Int
  | 0, _ => []
  | k + 1, r => ((r / 10 ^ k + 48 : Nat) : Int) :: fixed_dec k (r % 10 ^ k)

/-- The canonical decimal representation of `v` as characters: its digits,
most significant first, without a leading zero (and `"0"` for zero). -/
def dec_repr (v : Nat) : List Int :=
  if v = 0 then [48] else (Nat.digits 10 v).reverse.map (fun (d : Nat) => (d : Int) + 48)

/-- The padding character the decimal converter emits before the digits. -/
def dec_pad_char (padding : pad_type) : Int := if padding = PAD_ZERO_BEFORE then 48 else 32

/-- The `k` low decimal digits of `r`, most significant first, as numbers. -/
def fixed_digits : Nat → Nat → List Nat
  | 0, _ => []
  | k + 1, r => r / 10 ^ k :: fixed_digits k (r % 10 ^ k)

/-- The width the converter works with: `if (min_width <= 0) min_width = 1`. -/
def dec_width (min_width : Int) : Int := if min_width ≤ 0 then 1 else min_width

/-- The number a string of decimal digit characters denotes. -/
def dec_value (l : List Int) : Int := l.foldl (fun a c => 10 * a + (c - 48)) 0

/-- The character the converter emits for a nibble:
`nibble += nibble > 9 ? 87 : 48`. -/
def hex_char (d : Nat) : Int := ((d + (if d > 9 then 87 else 48) : Nat) : Int)

/-- The `s` low hexadecimal digits of `num`, most significant first, as
characters. -/
def fixed_hex : Nat → Nat → List Int
  | 0, _ => []
  | s + 1, num => hex_char (num / 16 ^ s % 16) :: fixed_hex s num

/-- The canonical hexadecimal representation of `v` as characters: its
digits, most significant first, lowercase, without a leading zero (and `"0"`
for zero). -/
def hex_repr (v : Nat) : List Int :=
  if v = 0 then [48] else (Nat.digits 16 v).reverse.map hex_char

/-- The padding the hexadecimal converter emits for `n` suppressed nibbles. -/
def hex_pad (padding : pad_type) (n : Nat) : List Int :=
  if padding = PAD_ZERO_BEFORE then List.replicate n 48
  else if padding = PAD_SPACE_BEFORE then List.replicate n 32 else []

/-- The `s` low hexadecimal digits of `num`, most significant first, as
numbers. -/
def fixed_nibbles : Nat → Nat → List Nat
  | 0, _ => []
  | s + 1, num => num / 16 ^ s % 16 :: fixed_nibbles s num

/-- The value of a lowercase hexadecimal digit character, if it is one. -/
def hex_digit_value (c : Int) : Option Nat :=
  if 48 ≤ c ∧ c ≤ 57 then some (c - 48).toNat
  else if 97 ≤ c ∧ c ≤ 102 then some (c - 87).toNat
  else none

/-- Base-16 parsing of a string of lowercase hexadecimal digits, continuing
from the value `acc`; `none` if a character is not such a digit. -/
def hex_parse_from : Nat → List Int → Option Nat
  | acc, [] => some acc
  | acc, c :: l =>
    match hex_digit_value c with
    | some d => hex_parse_from (16 * acc + d) l
    | none => none

/-- Base-16 parsing of a string of lowercase hexadecimal digits. -/
def hex_parse (l : List Int) : Option Nat := hex_parse_from 0 l

/-- The property of being a lowercase hexadecimal digit character. -/
def is_lower_hex (c : Int) : Prop := (48 ≤ c ∧ c ≤ 57) ∨ (97 ≤ c ∧ c ≤ 102)

instance (c : Int) : Decidable (is_lower_hex c) := by
  unfold is_lower_hex
  infer_instance

/-- The continuation of the interpreter after a directive has emitted `o`:
the rest of the template is formatted with the remaining arguments. -/
def emit_then (o : List Int) (rest : Option (List Int)) : Option (List Int) :=
  match rest with
  | none => none
  | some r => some (o ++ r)

/-- The characters directive mode recognises: a flag, a digit, a length
modifier or a conversion character. -/
def is_directive_char (c : Int) : Prop :=
  c = 45 ∨ (48 ≤ c ∧ c ≤ 57) ∨ c = 104 ∨ c = 108 ∨ c = 122 ∨ c = 100 ∨ c = 105 ∨
  c = 117 ∨ c = 112 ∨ c = 120 ∨ c = 88 ∨ c = 115 ∨ c = 99 ∨ c = 102 ∨ c = 37

instance (c : Int) : Decidable (is_directive_char c) := by
  unfold is_directive_char
  infer_instance

/-- A length modifier character `c` that conflicts with the recorded modifier
`length_mod`: one is recorded already and `c` does not double an `h` or an
`l`. -/
def length_mod_conflict (c length_mod : Int) : Prop :=
  (c = 104 ∨ c = 108 ∨ c = 122) ∧ length_mod ≠ 0 ∧
  ¬ (c = 104 ∧ length_mod = 104) ∧ ¬ (c = 108 ∧ length_mod = 108)

instance (c length_mod : Int) : Decidable (length_mod_conflict c length_mod) := by
  unfold length_mod_conflict
  infer_instance

/-- The loop `while (*fmt)` of `z_vprintk`, from the locals `st`, with the
state at its exit: the characters emitted, the locals and the arguments not
consumed. -/
def z_vprintk_run (c64 : Bool) :
    List Int → fmt_state → va_list → Option (List Int × fmt_state × va_list)
  | [], st, ap => some ([], st, ap)
  | c :: fmt, st, ap =>
    if c = 0 then some ([], st, ap)
    else
      match z_vprintk_step c64 c st ap with
      | none => none
      | some (o, st, ap) =>
        match z_vprintk_run c64 fmt st ap with
        | none => none
        | some (rest, st, ap) => some (o ++ rest, st, ap)

/-- The characters that keep the interpreter in directive mode whatever the
locals: the flag `'-'` and the digits. -/
def is_flag_or_digit (c : Int) : Prop := c = 45 ∨ (48 ≤ c ∧ c ≤ 57)

instance (c : Int) : Decidable (is_flag_or_digit c) := by
  unfold is_flag_or_digit
  infer_instance

/-- The length modifier runs of the directive grammar: none, `h`, `hh`, `l`,
`ll`, `z`. -/
def length_mod_runs : List (List Int) := [[], [104], [104, 104], [108], [108, 108], [122]]

/-! ## The output routing layer -/

/-- The function `z_impl_k_str_out`: the characters `c[0]`, ..., `c[n - 1]`
it hands to `_char_out`, in order. -/
def z_impl_k_str_out (c : Nat → Int) (n : Nat) : List Int := (List.range n).map c

/-- The `struct buf_out_context`.  The array `buf` is the function from the
index to the `char` stored there.  The field `buf_count`, an `unsigned int`,
is compared with the capacity after each increment, so it does not wrap for a
capacity that an `unsigned int` can hold. -/
structure buf_out_context where
  count : Int
  buf_count : Nat
  buf : Nat → Int

/-- The state of the buffered path: the context, and the calls of `k_str_out`
made so far, each recorded as the characters it handed over. -/
structure buf_state where
  ctx : buf_out_context
  flushed : List (List Int)

/-- The function `buf_flush`. -/
def buf_flush (s : buf_state) : buf_state :=
  { ctx := { s.ctx with buf_count := 0 },
    flushed := s.flushed ++ [z_impl_k_str_out s.ctx.buf s.ctx.buf_count] }

/-- The function `buf_char_out`, with `CONFIG_PRINTK_BUFFER_SIZE` the
parameter `size`. -/
def buf_char_out (size : Nat) (c : Int) (s : buf_state) : buf_state :=
  let s1 : buf_state :=
    { ctx := { count := s.ctx.count + 1,
               buf := Function.update s.ctx.buf s.ctx.buf_count (to_char c),
               buf_count := s.ctx.buf_count + 1 },
      flushed := s.flushed }
  if s1.ctx.buf_count = size then buf_flush s1 else s1

/-- The `struct out_context` together with the characters handed to
`_char_out` so far. -/
structure out_context where
  count : Int
  sink : List Int

/-- The function `char_out`. -/
def char_out (c : Int) (ctx : out_context) : out_context :=
  { count := ctx.count + 1, sink := ctx.sink ++ [c] }

/-- The function `vprintk` built with `CONFIG_USERSPACE`; `is_user_context`
is the value of `_is_user_context()`.  It returns the final `count`, the calls
of `k_str_out` and the characters handed to `_char_out`, in order. -/
def vprintk (size : Nat) (c64 : Bool) (is_user_context : Bool) (fmt : List Int)
    (ap : va_list) : Option (Int × List (List Int) × List Int) :=
  match z_vprintk c64 fmt ap with
  | none => none
  | some o =>
    if is_user_context then
      let s := o.foldl (fun s c => buf_char_out size c s)
        { ctx := { count := 0, buf_count := 0, buf := fun _ => 0 }, flushed := [] }
      let s := if s.ctx.buf_count ≠ 0 then buf_flush s else s
      some (s.ctx.count, s.flushed, s.flushed.flatten)
    else
      let ctx := o.foldl (fun ctx c => char_out c ctx) { count := 0, sink := [] }
      some (ctx.count, [], ctx.sink)

/-- The invariant of the buffered path after the characters `p` have been
handed to `buf_char_out`. -/
def buf_inv (size : Nat) (p : List Int) (s : buf_state) : Prop :=
  s.ctx.count = p.length ∧ s.ctx.buf_count < size ∧
  s.flushed.flatten ++ z_impl_k_str_out s.ctx.buf s.ctx.buf_count = p.map to_char ∧
  ∀ ch ∈ s.flushed, ch.length = size

/-- The context of the buffered path as `vprintk` initialises it:
`struct buf_out_context ctx = { 0 }`, before any call of `k_str_out`. -/
def buf_state.init : buf_state :=
  { ctx := { count := 0, buf_count := 0, buf := fun _ => 0 }, flushed := [] }

/-- The state of the buffered path after `buf_char_out` has been called for
the characters `l`, in order, from the zero-initialised context. -/
def buf_run (size : Nat) (l : List Int) : buf_state :=
  l.foldl (fun s c => buf_char_out size c s) buf_state.init

/-! ## The fatal error handler (`arch/arm/core/fatal.c`) -/

/-- The function `printk` without `CONFIG_LOG_PRINTK`, called in a privileged
context, where `vprintk` formats with `char_out`: the characters handed to
`_char_out`. -/
def printk (c64 : Bool) (fmt : List Int) (ap : va_list) : Option (List Int) :=
  match z_vprintk c64 fmt ap with
  | none => none
  | some o => some (o.foldl (fun ctx c => char_out c ctx) { count := 0, sink := [] }).sink

/-- The constant `_NANO_ERR_HW_EXCEPTION`. -/
def _NANO_ERR_HW_EXCEPTION : Nat := 0
/-- The constant `_NANO_ERR_STACK_CHK_FAIL`. -/
def _NANO_ERR_STACK_CHK_FAIL : Nat := 2
/-- The constant `_NANO_ERR_ALLOCATION_FAIL`. -/
def _NANO_ERR_ALLOCATION_FAIL : Nat := 3
/-- The constant `_NANO_ERR_KERNEL_OOPS`. -/
def _NANO_ERR_KERNEL_OOPS : Nat := 4
/-- The constant `_NANO_ERR_KERNEL_PANIC`. -/
def _NANO_ERR_KERNEL_PANIC : Nat := 5
/-- The constant `_NANO_ERR_HW_MPU_FAULT`. -/
def _NANO_ERR_HW_MPU_FAULT : Nat := 10
/-- The constant `_NANO_ERR_HW_MPU_MSTKERR`. -/
def _NANO_ERR_HW_MPU_MSTKERR : Nat := 11
/-- The constant `_NANO_ERR_HW_MPU_MUNSTKERR`. -/
def _NANO_ERR_HW_MPU_MUNSTKERR : Nat := 12
/-- The constant `_NANO_ERR_HW_MPU_DACCVIOL`. -/
def _NANO_ERR_HW_MPU_DACCVIOL : Nat := 13
/-- The constant `_NANO_ERR_HW_MPU_IACCVIOL`. -/
def _NANO_ERR_HW_MPU_IACCVIOL : Nat := 14
/-- The constant `_NANO_ERR_HW_MPU_MLSPERR`. -/
def _NANO_ERR_HW_MPU_MLSPERR : Nat := 15
/-- The constant `_NANO_ERR_HW_BUS_FAULT`. -/
def _NANO_ERR_HW_BUS_FAULT : Nat := 20
/-- The constant `_NANO_ERR_HW_BUS_STKERR`. -/
def _NANO_ERR_HW_BUS_STKERR : Nat := 21
/-- The constant `_NANO_ERR_HW_BUS_UNSTKERR`. -/
def _NANO_ERR_HW_BUS_UNSTKERR : Nat := 22
/-- The constant `_NANO_ERR_HW_BUS_PRECISERR`. -/
def _NANO_ERR_HW_BUS_PRECISERR : Nat := 23
/-- The constant `_NANO_ERR_HW_BUS_IBUSERR`. -/
def _NANO_ERR_HW_BUS_IBUSERR : Nat := 24
/-- The constant `_NANO_ERR_HW_BUS_LSPERR`. -/
def _NANO_ERR_HW_BUS_LSPERR : Nat := 25
/-- The constant `_NANO_ERR_HW_USAGE_FAULT`. -/
def _NANO_ERR_HW_USAGE_FAULT : Nat := 30
/-- The constant `_NANO_ERR_HW_USAGE_DIVBYZERO`. -/
def _NANO_ERR_HW_USAGE_DIVBYZERO : Nat := 31
/-- The constant `_NANO_ERR_HW_USAGE_UNALIGNED`. -/
def _NANO_ERR_HW_USAGE_UNALIGNED : Nat := 32
/-- The constant `_NANO_ERR_HW_USAGE_STKOF`. -/
def _NANO_ERR_HW_USAGE_STKOF : Nat := 33
/-- The constant `_NANO_ERR_HW_USAGE_NOCP`. -/
def _NANO_ERR_HW_USAGE_NOCP : Nat := 34
/-- The constant `_NANO_ERR_HW_USAGE_INVPC`. -/
def _NANO_ERR_HW_USAGE_INVPC : Nat := 35
/-- The constant `_NANO_ERR_HW_USAGE_INVSTATE`. -/
def _NANO_ERR_HW_USAGE_INVSTATE : Nat := 36
/-- The constant `_NANO_ERR_HW_USAGE_UNDEFINSTR`. -/
def _NANO_ERR_HW_USAGE_UNDEFINSTR : Nat := 37
/-- The constant `_NANO_ERR_HW_SECURE_FAULT`. -/
def _NANO_ERR_HW_SECURE_FAULT : Nat := 40

/-- What the build of `fatal.c` depends on and the sources do not fix:
`stack_check` says whether one of `CONFIG_STACK_CANARIES`,
`CONFIG_STACK_SENTINEL`, `CONFIG_HW_STACK_PROTECTION`, `CONFIG_USERSPACE` is
defined, and `bus_impreciserr` is the value of `_NANO_ERR_HW_BUS_IMPRECISERR`,
a case label of the handler that `error.h` does not define. -/
structure fatal_config where
  stack_check : Bool
  bus_impreciserr : Nat

/-- The case labels of a `switch` are distinct: `_NANO_ERR_HW_BUS_IMPRECISERR`
is none of the labels outside the bus fault group. -/
def fatal_config.labels_distinct (cfg : fatal_config) : Prop :=
  cfg.bus_impreciserr ≠ 0 ∧ ¬ (2 ≤ cfg.bus_impreciserr ∧ cfg.bus_impreciserr ≤ 5) ∧
  ¬ (10 ≤ cfg.bus_impreciserr ∧ cfg.bus_impreciserr ≤ 15) ∧
  ¬ (30 ≤ cfg.bus_impreciserr ∧ cfg.bus_impreciserr ≤ 37) ∧ cfg.bus_impreciserr ≠ 40

/-- The `switch (reason)` of `z_NanoFatalErrorHandler`: the template and the
arguments of the call of `printk` it selects. -/
def fatal_banner (cfg : fatal_config) (reason : Nat) : List Int × va_list :=
  if reason = _NANO_ERR_HW_EXCEPTION then
    (cstr "***** Hardware exception *****\n", [])
  else if reason = _NANO_ERR_HW_MPU_FAULT ∨ reason = _NANO_ERR_HW_MPU_MSTKERR ∨
      reason = _NANO_ERR_HW_MPU_MUNSTKERR ∨ reason = _NANO_ERR_HW_MPU_DACCVIOL ∨
      reason = _NANO_ERR_HW_MPU_IACCVIOL ∨ reason = _NANO_ERR_HW_MPU_MLSPERR then
    (cstr "***** Hardware exception MPU Fault *****\n", [])
  else if reason = _NANO_ERR_HW_BUS_FAULT ∨ reason = _NANO_ERR_HW_BUS_STKERR ∨
      reason = _NANO_ERR_HW_BUS_UNSTKERR ∨ reason = _NANO_ERR_HW_BUS_PRECISERR ∨
      reason = cfg.bus_impreciserr ∨ reason = _NANO_ERR_HW_BUS_IBUSERR ∨
      reason = _NANO_ERR_HW_BUS_LSPERR then
    (cstr "***** Hardware exception BUS Fault *****\n", [])
  else if reason = _NANO_ERR_HW_USAGE_FAULT ∨ reason = _NANO_ERR_HW_USAGE_DIVBYZERO ∨
      reason = _NANO_ERR_HW_USAGE_UNALIGNED ∨ reason = _NANO_ERR_HW_USAGE_STKOF ∨
      reason = _NANO_ERR_HW_USAGE_NOCP ∨ reason = _NANO_ERR_HW_USAGE_INVPC ∨
      reason = _NANO_ERR_HW_USAGE_INVSTATE ∨ reason = _NANO_ERR_HW_USAGE_UNDEFINSTR then
    (cstr "***** Hardware exception USAGE Fault *****\n", [])
  else if reason = _NANO_ERR_HW_SECURE_FAULT then
    (cstr "***** Hardware exception SECURE Fault *****\n", [])
  else if cfg.stack_check = true ∧ reason = _NANO_ERR_STACK_CHK_FAIL then
    (cstr "***** Stack Check Fail! *****\n", [])
  else if reason = _NANO_ERR_ALLOCATION_FAIL then
    (cstr "**** Kernel Allocation Failure! ****\n", [])
  else if reason = _NANO_ERR_KERNEL_OOPS then
    (cstr "***** Kernel OOPS! *****\n", [])
  else if reason = _NANO_ERR_KERNEL_PANIC then
    (cstr "***** Kernel Panic! *****\n", [])
  else
    (cstr "**** Unknown Fatal Error %d! ****\n", [Arg.int reason])

/-- The second call of `printk` in `z_NanoFatalErrorHandler`, with
`k_current_get()` and `pEsf->pc` as arguments. -/
def fatal_context_line (thread : Nat) (pc : Nat) : Option (List Int) :=
  printk false (cstr "Current thread ID = %p, Faulting instruction address = 0x%x\n")
    [Arg.ptr thread, Arg.int pc]

/-- The function `z_NanoFatalErrorHandler` (a Cortex-M target, without
`CONFIG_64BIT`): the characters its two calls of `printk` hand to
`_char_out`, before it calls `z_SysFatalErrorHandler`. -/
def z_NanoFatalErrorHandler (cfg : fatal_config) (reason : Nat) (thread : Nat) (pc : Nat) :
    Option (List Int) :=
  match printk false (fatal_banner cfg reason).1 (fatal_banner cfg reason).2 with
  | none => none
  | some banner =>
    match fatal_context_line thread pc with
    | none => none
    | some line => some (banner ++ line)

/-- The output of the handler when its first call of `printk` prints
`banner`: the banner, then the line about the thread and the faulting
instruction. -/
def fatal_output (banner : List Int) (thread : Nat) (pc : Nat) : Option (List Int) :=
  (fatal_context_line thread pc).map (fun line => banner ++ line)

/-- The fault reasons for which the `switch` of the handler has a case. -/
def fatal_handled (cfg : fatal_config) (reason : Nat) : Prop :=
  reason = 0 ∨ (10 ≤ reason ∧ reason ≤ 15) ∨ (20 ≤ reason ∧ reason ≤ 25) ∨
  reason = cfg.bus_impreciserr ∨ (30 ≤ reason ∧ reason ≤ 37) ∨ reason = 40 ∨
  (cfg.stack_check = true ∧ reason = 2) ∨ reason = 3 ∨ reason = 4 ∨ reason = 5

/-! ## Theorems: the bounded buffer entry points -/

theorem to_int_of_lt (n : Nat) (h : n < 2 ^ 31) : to_int n = n := by
  unfold to_int
  omega

theorem to_int_le (n : Nat) : to_int n ≤ n := by
  unfold to_int
  omega

theorem str_out_all_append (l : List Int) (c : Int) (ctx : str_context) :
    str_out_all (l ++ [c]) ctx = str_out c (str_out_all l ctx) := by
  simp [str_out_all, List.foldl_append]

theorem str_out_all_null (max : Int) (o : List Int) :
    str_out_all o { str := none, max := max, count := 0 } =
      { str := none, max := max, count := o.length } := by
  induction o using List.reverseRecOn with
  | nil => rfl
  | append_singleton l c ih =>
    rw [str_out_all_append, ih]
    simp [str_out]

theorem str_out_all_some (m : Int → Int) (max : Int) (o : List Int) :
    str_out_all o { str := some m, max := max, count := 0 } =
      { str := some (str_filled m max o), max := max, count := o.length } := by
  induction o using List.reverseRecOn with
  | nil =>
    simp only [str_out_all, List.foldl_nil, List.length_nil, Nat.cast_zero]
    congr 2
    funext i
    simp only [str_filled, List.length_nil, Nat.cast_zero]
    split_ifs <;> first | rfl | omega
  | append_singleton l c ih =>
    have key : ∀ i : Int, 0 ≤ i → i < l.length →
        (l ++ [c]).getD i.toNat 0 = l.getD i.toNat 0 :=
      fun i _ _ => List.getD_append _ _ _ _ (by omega)
    have key2 : ∀ i : Int, i = l.length → (l ++ [c]).getD i.toNat 0 = c := by
      intro i hi
      subst hi
      simp
    rw [str_out_all_append, ih]
    simp only [str_out, List.length_append, List.length_singleton, Nat.cast_add, Nat.cast_one]
    split_ifs with h1 h2 <;> congr 2 <;> funext i <;>
      simp only [str_filled, List.length_append, List.length_singleton, Nat.cast_add,
        Nat.cast_one, Function.update_apply] <;>
      split_ifs <;>
      first
        | rfl
        | omega
        | rw [key i (by omega) (by omega)]
        | rw [key2 i (by omega)]

theorem snprintk_some (c64 : Bool) (m : Int → Int) (size : Nat) (fmt : List Int)
    (ap : va_list) (o : List Int) (hfmt : z_vprintk c64 fmt ap = some o) :
    snprintk c64 (some m) size fmt ap =
      some ((o.length : Int),
        some (if (o.length : Int) < to_int size
          then Function.update (str_filled m (to_int size) o) o.length 0
          else str_filled m (to_int size) o)) := by
  unfold snprintk
  rw [hfmt]
  simp only [str_out_all_some]
  split_ifs <;> rfl

theorem snprintk_null (c64 : Bool) (size : Nat) (fmt : List Int)
    (ap : va_list) (o : List Int) (hfmt : z_vprintk c64 fmt ap = some o) :
    snprintk c64 none size fmt ap =
      if (o.length : Int) < to_int size then none else some ((o.length : Int), none) := by
  unfold snprintk
  rw [hfmt]
  simp only [str_out_all_null]

/-- C2: the value returned by `snprintk` is the number of characters the
interpreter emits, whatever the buffer and its size; a result is returned
for every non-NULL buffer, and for a NULL buffer whenever the capacity does
not exceed that number (a capacity of 0 in particular). -/
theorem snprintk_returns_length (c64 : Bool) (str : Option (Int → Int)) (size : Nat)
    (fmt : List Int) (ap : va_list) (o : List Int) (hfmt : z_vprintk c64 fmt ap = some o) :
    (∀ r, snprintk c64 str size fmt ap = some r → r.1 = o.length) ∧
    (str ≠ none ∨ to_int size ≤ o.length →
      ∃ m', snprintk c64 str size fmt ap = some ((o.length : Int), m')) := by
  cases str with
  | none =>
    rw [snprintk_null c64 size fmt ap o hfmt]
    constructor
    · intro r hr
      split_ifs at hr
      cases hr
      rfl
    · intro h
      rcases h with h | h
      · exact absurd rfl h
      · rw [if_neg (by omega)]
        exact ⟨none, rfl⟩
  | some m =>
    rw [snprintk_some c64 m size fmt ap o hfmt]
    constructor
    · intro r hr
      cases hr
      rfl
    · intro _
      exact ⟨_, rfl⟩

/-- C2, witness: measuring with a NULL buffer of size 0 and filling a buffer
of size 5 both return 11 for `"%s"` with `"hello world"`. -/
theorem snprintk_returns_length_witness :
    (∃ m', snprintk false none 0 (cstr "%s") [Arg.str (cstr "hello world")]
        = some (11, m')) ∧
    (∃ m', snprintk false (some (fun _ => 1)) 5 (cstr "%s") [Arg.str (cstr "hello world")]
        = some (11, m')) :=
  ⟨(snprintk_returns_length false none 0 (cstr "%s") [Arg.str (cstr "hello world")]
      (cstr "hello world") (by decide)).2 (Or.inr (by decide)),
   (snprintk_returns_length false (some (fun _ => 1)) 5 (cstr "%s")
      [Arg.str (cstr "hello world")] (cstr "hello world") (by decide)).2
      (Or.inl (by simp))⟩

/-- C3: `snprintk` stores nothing outside the caller's capacity: every
offset `i` with `i < 0` or `size ≤ i` holds what it held before, and with
`size = 0` the whole buffer is unchanged. -/
theorem snprintk_frame (c64 : Bool) (m : Int → Int) (size : Nat) (fmt : List Int)
    (ap : va_list) (o : List Int) (hfmt : z_vprintk c64 fmt ap = some o) :
    ∃ m', snprintk c64 (some m) size fmt ap = some ((o.length : Int), some m') ∧
      (∀ i : Int, i < 0 ∨ (size : Int) ≤ i → m' i = m i) ∧
      (size = 0 → m' = m) := by
  have hle := to_int_le size
  have hframe : ∀ i : Int, i < 0 ∨ (size : Int) ≤ i →
      (if (o.length : Int) < to_int size
          then Function.update (str_filled m (to_int size) o) o.length 0
          else str_filled m (to_int size) o) i = m i := by
    intro i hi
    split_ifs with h
    · rw [Function.update_apply, if_neg (by omega)]
      simp only [str_filled]
      rw [if_neg (by omega), if_neg (by omega)]
    · simp only [str_filled]
      rw [if_neg (by omega), if_neg (by omega)]
  refine ⟨_, snprintk_some c64 m size fmt ap o hfmt, hframe, ?_⟩
  intro h0
  funext i
  apply hframe
  subst h0
  simp only [Nat.cast_zero]
  omega

/-- C3, witness: `snprintk(buf, 5, "%s", "hello world")` leaves offsets 5 and
above (and a buffer of size 0 entirely) as they were. -/
theorem snprintk_frame_witness :
    ∃ m', snprintk false (some (fun _ => 1)) 5 (cstr "%s") [Arg.str (cstr "hello world")]
        = some (11, some m') ∧ m' 5 = 1 ∧ m' 6 = 1 ∧ m' 11 = 1 := by
  obtain ⟨m', h, hfr, _⟩ := snprintk_frame false (fun _ => 1) 5 (cstr "%s")
    [Arg.str (cstr "hello world")] (cstr "hello world") (by decide)
  exact ⟨m', h, hfr 5 (Or.inr (by decide)), hfr 6 (Or.inr (by decide)),
    hfr 11 (Or.inr (by decide))⟩

/-! ## Theorems: the decimal converter -/

theorem to_int_digit (d : Nat) (h : d < 10) : to_int ((d + 48 : Nat) : Int) = ((d + 48 : Nat) : Int) := by
  unfold to_int
  omega

theorem pow_ten_pos (j : Nat) : 1 ≤ 10 ^ j := Nat.one_le_pow _ _ (by decide)

theorem pos_div_ten (j : Nat) : (10 ^ (j + 1) - 1) / 10 = 10 ^ j - 1 := by
  have := pow_ten_pos j
  rw [pow_succ]
  omega

theorem pos_add_one (j : Nat) : 10 ^ j - 1 + 1 = 10 ^ j := by
  have := pow_ten_pos j
  omega

theorem pos_ge_nine (j : Nat) : 10 ^ (j + 1) - 1 ≥ 9 := by
  have := pow_ten_pos j
  rw [pow_succ]
  omega

theorem fixed_dec_length (k r : Nat) : (fixed_dec k r).length = k := by
  induction k generalizing r with
  | zero => rfl
  | succ k ih => simp [fixed_dec, ih]

/-- Once a significant digit has been found the loop emits one digit for each
remaining position. -/
theorem dec_loop_found (padding : pad_type) (min_width : Int) (j : Nat) :
    ∀ (fuel r : Nat) (remaining digits : Int), j < fuel → r < 10 ^ (j + 1) →
      (dec_loop padding min_width fuel (10 ^ j - 1) r true remaining digits).1 ++
        [to_int (((dec_loop padding min_width fuel (10 ^ j - 1) r true remaining
          digits).2.1 + 48 : Nat) : Int)] = fixed_dec (j + 1) r := by
  induction j with
  | zero =>
    intro fuel r remaining digits hf hr
    obtain ⟨f, rfl⟩ : ∃ f, fuel = f + 1 := ⟨fuel - 1, by omega⟩
    have hr' : r < 10 := by simpa using hr
    simp only [dec_loop, fixed_dec]
    simp only [ge_iff_le, Nat.reduceLeDiff, pow_zero, Nat.sub_self, if_false, List.nil_append,
      Nat.div_one]
    rw [to_int_digit r hr']
  | succ j ih =>
    intro fuel r remaining digits hf hr
    obtain ⟨f, rfl⟩ : ∃ f, fuel = f + 1 := ⟨fuel - 1, by omega⟩
    rw [dec_loop]
    rw [if_pos (pos_ge_nine j), if_pos (Or.inl rfl), pos_div_ten, pos_add_one]
    have hd : r / 10 ^ (j + 1) < 10 := by
      rw [Nat.div_lt_iff_lt_mul (by positivity)]
      rw [pow_succ] at hr
      omega
    have hm : r % 10 ^ (j + 1) < 10 ^ (j + 1) := Nat.mod_lt _ (by positivity)
    simp only [List.cons_append]
    rw [ih f (r % 10 ^ (j + 1)) _ _ (by omega) hm, to_int_digit _ hd]
    rfl

/-- The variable `digits` counts the characters emitted by the loop. -/
theorem dec_loop_digits (padding : pad_type) (min_width : Int) (fuel : Nat) :
    ∀ (pos r : Nat) (found : Bool) (remaining digits : Int),
      (dec_loop padding min_width fuel pos r found remaining digits).2.2 =
        digits + (dec_loop padding min_width fuel pos r found remaining digits).1.length := by
  induction fuel with
  | zero =>
    intro pos r found remaining digits
    simp [dec_loop]
  | succ f ih =>
    intro pos r found remaining digits
    rw [dec_loop]
    split_ifs <;> (try dsimp only) <;>
      first
        | exact ih _ _ _ _ _
        | (rw [ih, List.length_cons]
           push_cast
           ring)
        | simp

/-- Before a significant digit has been found: for a value `r` of exactly
`k + 1` digits the loop emits padding for the positions above the digits that
lie within the width, then the digits. -/
theorem dec_loop_not_found (padding : pad_type) (min_width : Int) (j : Nat) :
    ∀ (k fuel r : Nat) (digits : Int), k ≤ j → j < fuel → (k = 0 ∨ 10 ^ k ≤ r) →
      r < 10 ^ (k + 1) →
      (dec_loop padding min_width fuel (10 ^ j - 1) r false (j + 1 : Nat) digits).1 ++
        [to_int (((dec_loop padding min_width fuel (10 ^ j - 1) r false (j + 1 : Nat)
          digits).2.1 + 48 : Nat) : Int)] =
        (if padding.val < 3 then
          List.replicate (min (j + 1) min_width.toNat - (k + 1)) (dec_pad_char padding)
         else []) ++ fixed_dec (k + 1) r := by
  induction j with
  | zero =>
    intro k fuel r digits hk hf _ hr
    obtain ⟨f, rfl⟩ : ∃ f, fuel = f + 1 := ⟨fuel - 1, by omega⟩
    obtain rfl : k = 0 := by omega
    have hr' : r < 10 := by simpa using hr
    have h0 : min (0 + 1) min_width.toNat - (0 + 1) = 0 := by omega
    rw [h0]
    simp only [dec_loop, fixed_dec]
    simp only [ge_iff_le, Nat.reduceLeDiff, pow_zero, Nat.sub_self, if_false, List.nil_append,
      Nat.div_one, List.replicate_zero, ite_self]
    rw [to_int_digit r hr']
  | succ j ih =>
    intro k fuel r digits hk hf hlow hr
    obtain ⟨f, rfl⟩ : ∃ f, fuel = f + 1 := ⟨fuel - 1, by omega⟩
    rw [dec_loop]
    rw [if_pos (pos_ge_nine j), pos_div_ten, pos_add_one]
    have hpos := pow_ten_pos (j + 1)
    by_cases hkj : k = j + 1
    · subst hkj
      have hlow' : 10 ^ (j + 1) ≤ r := by
        rcases hlow with h | h
        · omega
        · exact h
      rw [if_pos (Or.inr (by omega))]
      have hd : r / 10 ^ (j + 1) < 10 := by
        rw [Nat.div_lt_iff_lt_mul (by positivity)]
        rw [pow_succ] at hr
        omega
      have hm : r % 10 ^ (j + 1) < 10 ^ (j + 1) := Nat.mod_lt _ (by positivity)
      have h0 : min (j + 1 + 1) min_width.toNat - (j + 1 + 1) = 0 := by omega
      simp only [List.cons_append]
      rw [dec_loop_found padding min_width j f _ _ _ (by omega) hm, to_int_digit _ hd, h0]
      simp [fixed_dec]
    · have hk' : k ≤ j := by omega
      have hr' : r < 10 ^ (j + 1) :=
        lt_of_lt_of_le hr (Nat.pow_le_pow_right (by decide) (by omega))
      have hmod : r % 10 ^ (j + 1) = r := Nat.mod_eq_of_lt hr'
      rw [if_neg (by simp; omega), hmod]
      have hrem : ((j + 1 : Nat) : Int) + 1 - 1 = ((j + 1 : Nat) : Int) := by ring
      have hcast : (((j + 1 + 1 : Nat) : Int) - 1) = ((j + 1 : Nat) : Int) := by
        push_cast
        ring
      rw [hcast]
      have IH := ih k f r
      by_cases hpad : ((j + 1 + 1 : Nat) : Int) ≤ min_width ∧
          padding.val < PAD_SPACE_AFTER.val
      · rw [if_pos hpad]
        simp only [List.cons_append]
        rw [IH _ hk' (by omega) hlow hr]
        have hv : padding.val < 3 := hpad.2
        have h1 : min (j + 1 + 1) min_width.toNat - (k + 1) =
            (min (j + 1) min_width.toNat - (k + 1)) + 1 := by omega
        rw [if_pos hv, if_pos hv, h1, List.replicate_succ]
        rfl
      · rw [if_neg hpad]
        rw [IH _ hk' (by omega) hlow hr]
        by_cases hv : padding.val < 3
        · have h1 : min (j + 1 + 1) min_width.toNat = min (j + 1) min_width.toNat := by
            have : ¬ ((j + 1 + 1 : Nat) : Int) ≤ min_width := fun h => hpad ⟨h, hv⟩
            omega
          rw [h1]
        · rw [if_neg hv, if_neg hv]

theorem fixed_dec_eq_map (k r : Nat) :
    fixed_dec k r = (fixed_digits k r).map (fun (d : Nat) => (d : Int) + 48) := by
  induction k generalizing r with
  | zero => rfl
  | succ k ih => simp [fixed_dec, fixed_digits, ih]

theorem fixed_digits_length (k r : Nat) : (fixed_digits k r).length = k := by
  induction k generalizing r with
  | zero => rfl
  | succ k ih => simp [fixed_digits, ih]

theorem fixed_digits_lt (k : Nat) : ∀ r, r < 10 ^ k → ∀ d ∈ fixed_digits k r, d < 10 := by
  induction k with
  | zero => intro r _ d hd; simp [fixed_digits] at hd
  | succ k ih =>
    intro r hr d hd
    simp only [fixed_digits, List.mem_cons] at hd
    rcases hd with rfl | hd
    · rw [Nat.div_lt_iff_lt_mul (by positivity)]
      rw [pow_succ] at hr
      omega
    · exact ih _ (Nat.mod_lt _ (by positivity)) d hd

theorem ofDigits_fixed_digits (k : Nat) :
    ∀ r, r < 10 ^ k → Nat.ofDigits 10 (fixed_digits k r).reverse = r := by
  induction k with
  | zero =>
    intro r hr
    have : r = 0 := by simpa using hr
    simp [fixed_digits, this]
  | succ k ih =>
    intro r _
    simp only [fixed_digits, List.reverse_cons]
    rw [Nat.ofDigits_append, ih _ (Nat.mod_lt _ (by positivity)), List.length_reverse,
      fixed_digits_length, Nat.ofDigits_singleton]
    exact Nat.mod_add_div r (10 ^ k)

/-- A value of exactly `k + 1` decimal digits: its fixed-width digit string is
its canonical representation. -/
theorem fixed_dec_eq_dec_repr (k r : Nat) (hlow : k = 0 ∨ 10 ^ k ≤ r)
    (hr : r < 10 ^ (k + 1)) : fixed_dec (k + 1) r = dec_repr r := by
  by_cases h0 : r = 0
  · subst h0
    have hk : k = 0 := by
      rcases hlow with h | h
      · exact h
      · have := pow_ten_pos k
        omega
    subst hk
    simp [fixed_dec, dec_repr]
  · have hlow' : 10 ^ k ≤ r := by
      rcases hlow with h | h
      · subst h
        simp
        omega
      · exact h
    have hdig : Nat.digits 10 r = (fixed_digits (k + 1) r).reverse := by
      conv_lhs => rw [← ofDigits_fixed_digits (k + 1) r hr]
      apply Nat.digits_ofDigits 10 (by decide)
      · intro d hd
        exact fixed_digits_lt (k + 1) r hr d (List.mem_reverse.mp hd)
      · intro hne
        simp only [fixed_digits, List.reverse_cons, List.getLast_append_singleton]
        have : 0 < r / 10 ^ k := Nat.div_pos hlow' (by positivity)
        omega
    rw [dec_repr, if_neg h0, hdig, List.reverse_reverse, fixed_dec_eq_map]

theorem exists_digit_count (n r : Nat) (hr : r < 10 ^ (n + 1)) :
    ∃ k, k ≤ n ∧ (k = 0 ∨ 10 ^ k ≤ r) ∧ r < 10 ^ (k + 1) := by
  by_cases h0 : r = 0
  · exact ⟨0, Nat.zero_le _, Or.inl rfl, by subst h0; simp⟩
  · refine ⟨Nat.log 10 r, ?_, Or.inr (Nat.pow_log_le_self 10 h0),
      Nat.lt_pow_succ_log_self (by decide) r⟩
    have := Nat.log_lt_of_lt_pow h0 hr
    omega

/-- The output of the decimal converter for a value below `10 ^ 10` (every
32-bit value): padding before the digits up to a width of at most ten, the
canonical digits, and for `PAD_SPACE_AFTER` spaces up to the width. -/
theorem dec_ulong_eq (num : Nat) (hnum : num < 10 ^ 10) (padding : pad_type)
    (min_width : Int) :
    _printk_dec_ulong num padding min_width =
      (if padding.val < 3 then
          List.replicate (min 10 (dec_width min_width).toNat - (dec_repr num).length)
            (dec_pad_char padding)
        else []) ++ dec_repr num ++
      (if padding = PAD_SPACE_AFTER then
          pad_spaces (dec_width min_width - (dec_repr num).length)
        else []) := by
  obtain ⟨k, hk, hlow, hr⟩ := exists_digit_count 9 num hnum
  have hloop := dec_loop_not_found padding (dec_width min_width) 9 k 10 num 1 hk (by decide)
    hlow hr
  have hdig := dec_loop_digits padding (dec_width min_width) 10 999999999 num false 10 1
  have hrepr := fixed_dec_eq_dec_repr k num hlow hr
  have hlen : (dec_repr num).length = k + 1 := by rw [← hrepr, fixed_dec_length]
  have h9 : (10 : Nat) ^ 9 - 1 = 999999999 := by norm_num
  have h10 : (((9 + 1 : Nat)) : Int) = 10 := by norm_num
  rw [h9, h10, hrepr] at hloop
  unfold _printk_dec_ulong
  simp only []
  rw [← dec_width, hloop, hdig, hlen]
  by_cases hp : padding = PAD_SPACE_AFTER
  · subst hp
    have hv : ¬ PAD_SPACE_AFTER.val < 3 := by decide
    have hloop' := congrArg List.length hloop
    rw [if_neg hv] at hloop'
    simp only [List.length_append, List.length_singleton, List.nil_append, hlen] at hloop'
    simp only [if_neg hv, if_true, List.nil_append]
    congr 2
    push_cast
    omega
  · simp only [if_neg hp]

theorem dec_value_append_singleton (l : List Int) (c : Int) :
    dec_value (l ++ [c]) = 10 * dec_value l + (c - 48) := by
  simp [dec_value, List.foldl_append]

theorem dec_value_digits (L : List Nat) :
    dec_value (L.reverse.map (fun (d : Nat) => (d : Int) + 48)) = (Nat.ofDigits 10 L : Nat) := by
  induction L with
  | nil => simp [dec_value]
  | cons d t ih =>
    rw [List.reverse_cons, List.map_append, List.map_singleton, dec_value_append_singleton, ih,
      Nat.ofDigits_cons]
    push_cast
    ring

theorem dec_value_dec_repr (v : Nat) : dec_value (dec_repr v) = v := by
  unfold dec_repr
  split_ifs with h
  · subst h
    simp [dec_value]
  · rw [dec_value_digits, Nat.ofDigits_digits]

theorem dec_value_zeros (z : Nat) (l : List Int) :
    dec_value (List.replicate z 48 ++ l) = dec_value l := by
  induction z with
  | zero => simp
  | succ z ih =>
    rw [List.replicate_succ, List.cons_append]
    unfold dec_value at ih ⊢
    rw [List.foldl_cons]
    simpa using ih

theorem dec_repr_is_digit (v : Nat) : ∀ c ∈ dec_repr v, 48 ≤ c ∧ c ≤ 57 := by
  intro c hc
  unfold dec_repr at hc
  split_ifs at hc with h
  · simp only [List.mem_singleton] at hc
    omega
  · simp only [List.mem_map, List.mem_reverse] at hc
    obtain ⟨d, hd, rfl⟩ := hc
    have := Nat.digits_lt_base (by decide : 1 < 10) hd
    omega

theorem dec_repr_length_pos (v : Nat) : 1 ≤ (dec_repr v).length := by
  unfold dec_repr
  split_ifs with h
  · simp
  · have : Nat.digits 10 v ≠ [] := Nat.digits_ne_nil_iff_ne_zero.mpr h
    rw [List.length_map, List.length_reverse]
    exact List.length_pos.mpr this

theorem dec_repr_length_le (v : Nat) (hv : v < 10 ^ 10) : (dec_repr v).length ≤ 10 := by
  obtain ⟨k, hk, hlow, hr⟩ := exists_digit_count 9 v hv
  rw [← fixed_dec_eq_dec_repr k v hlow hr, fixed_dec_length]
  omega

/-- C4: for every unsigned 32-bit value `v` and every width `w` in `[0, 10]`,
`_printk_dec_ulong` with zero-before padding emits only ASCII digits, at least
`w` of them, the digit string denotes `v`, and it is the canonical decimal
representation of `v` preceded only by `'0'` characters. -/
theorem dec_ulong_zero_before (v : Nat) (w : Int) (hv : v < 2 ^ 32) (h0 : 0 ≤ w)
    (h10 : w ≤ 10) :
    (∀ c ∈ _printk_dec_ulong v PAD_ZERO_BEFORE w, 48 ≤ c ∧ c ≤ 57) ∧
    w ≤ (_printk_dec_ulong v PAD_ZERO_BEFORE w).length ∧
    dec_value (_printk_dec_ulong v PAD_ZERO_BEFORE w) = v ∧
    ∃ z, _printk_dec_ulong v PAD_ZERO_BEFORE w = List.replicate z 48 ++ dec_repr v := by
  have hv' : v < 10 ^ 10 := by omega
  have heq : _printk_dec_ulong v PAD_ZERO_BEFORE w =
      List.replicate (min 10 (dec_width w).toNat - (dec_repr v).length) 48 ++ dec_repr v := by
    rw [dec_ulong_eq v hv']
    simp [pad_type.val, dec_pad_char]
  have hpos := dec_repr_length_pos v
  rw [heq]
  refine ⟨?_, ?_, ?_, _, rfl⟩
  · intro c hc
    rw [List.mem_append] at hc
    rcases hc with hc | hc
    · have := List.eq_of_mem_replicate hc
      omega
    · exact dec_repr_is_digit v c hc
  · rw [List.length_append, List.length_replicate]
    unfold dec_width
    split_ifs <;> omega
  · rw [dec_value_zeros, dec_value_dec_repr]

/-- C4, witness: the value 42 with width 5 gives `"00042"`. -/
theorem dec_ulong_zero_before_witness :
    (5 : Int) ≤ (_printk_dec_ulong 42 PAD_ZERO_BEFORE 5).length ∧
    dec_value (_printk_dec_ulong 42 PAD_ZERO_BEFORE 5) = 42 :=
  ⟨(dec_ulong_zero_before 42 5 (by norm_num) (by norm_num) (by norm_num)).2.1,
   (dec_ulong_zero_before 42 5 (by norm_num) (by norm_num) (by norm_num)).2.2.1⟩

theorem signed_dec_nonneg (c64 : Bool) (st : fmt_state) (d : Int) (h : 0 ≤ d) :
    signed_dec c64 st d =
      (_printk_dec_ulong (to_ulong c64 d) st.padding st.min_width, st.done) := by
  unfold signed_dec
  rw [if_neg (by omega)]

theorem to_ulong_nat (c64 : Bool) (v : Nat) (h : v < 2 ^ 32) : to_ulong c64 v = v := by
  unfold to_ulong LONG_BITS
  cases c64 <;> simp <;> omega

theorem dec_repr_digit (w : Nat) (h : w < 10) : dec_repr w = [(w : Int) + 48] := by
  interval_cases w <;> simp [dec_repr]

theorem dec_repr_ten : dec_repr 10 = [49, 48] := by
  simp [dec_repr]

/-- C5: for every non-negative `int` value `v` and every width `1 ≤ w ≤ 10`
written in decimal, `"%<w>d"` gives the canonical digits of `v` after leading
spaces, `"%-<w>d"` the digits before trailing spaces, and `"%0<w>d"` the
digits after `'0'` characters, each of total length `max w (number of digits)`. -/
theorem vprintk_width_dec (c64 : Bool) (v w : Nat) (hv : v < 2 ^ 31) (hw1 : 1 ≤ w)
    (hw10 : w ≤ 10) :
    z_vprintk c64 (37 :: dec_repr w ++ [100]) [Arg.int v] =
      some (List.replicate (w - (dec_repr v).length) 32 ++ dec_repr v) ∧
    z_vprintk c64 (37 :: 45 :: dec_repr w ++ [100]) [Arg.int v] =
      some (dec_repr v ++ List.replicate (w - (dec_repr v).length) 32) ∧
    z_vprintk c64 (37 :: 48 :: dec_repr w ++ [100]) [Arg.int v] =
      some (List.replicate (w - (dec_repr v).length) 48 ++ dec_repr v) ∧
    (w - (dec_repr v).length) + (dec_repr v).length = max w (dec_repr v).length := by
  have hv' : v < 10 ^ 10 := by omega
  have hnn : (0 : Int) ≤ (v : Int) := Int.natCast_nonneg v
  have hlen := dec_repr_length_le v hv'
  refine ⟨?_, ?_, ?_, by omega⟩ <;>
    (interval_cases w <;>
      simp [dec_repr_digit, dec_repr_ten, z_vprintk, z_vprintk_loop, z_vprintk_step, directive,
        fmt_state.init, fmt_state.done, va_arg_int, signed_dec_nonneg, to_int_of_lt v hv,
        to_ulong_nat c64 v (by omega), dec_ulong_eq v hv', pad_type.val, dec_width,
        dec_pad_char, pad_spaces, hlen])

/-- C5, witness: 42 with `"%5d"`, `"%-5d"`, `"%05d"` gives `"   42"`,
`"42   "`, `"00042"`. -/
theorem vprintk_width_dec_witness :
    z_vprintk false (cstr "%5d") [Arg.int 42] = some (cstr "   42") ∧
    z_vprintk false (cstr "%-5d") [Arg.int 42] = some (cstr "42   ") ∧
    z_vprintk false (cstr "%05d") [Arg.int 42] = some (cstr "00042") := by
  have h := vprintk_width_dec false 42 5 (by norm_num) (by norm_num) (by norm_num)
  have e5 : dec_repr 5 = [53] := by simp [dec_repr]
  have e42 : dec_repr 42 = [52, 50] := by simp [dec_repr]
  rw [e5, e42] at h
  exact ⟨h.1, h.2.1, h.2.2.1⟩

/-- C6 (amended): applied to the value 0 the decimal converter emits exactly
one digit, `'0'`, together with the padding of the width: for
`PAD_SPACE_AFTER` the digit is followed by `width - 1` spaces, otherwise it is
preceded by `min width 10 - 1` padding characters; the output is exactly
`"0"` for every padding kind when the minimum width is at most 1. -/
theorem dec_ulong_of_zero (padding : pad_type) (min_width : Int) :
    _printk_dec_ulong 0 padding min_width =
      (if padding = PAD_SPACE_AFTER then
          48 :: List.replicate ((dec_width min_width).toNat - 1) 32
        else
          List.replicate (min 10 (dec_width min_width).toNat - 1) (dec_pad_char padding)
            ++ [48]) ∧
    (min_width ≤ 1 → _printk_dec_ulong 0 padding min_width = [48]) := by
  have h := dec_ulong_eq 0 (by norm_num) padding min_width
  have e0 : dec_repr 0 = [48] := by simp [dec_repr]
  rw [e0] at h
  have hmain : _printk_dec_ulong 0 padding min_width =
      (if padding = PAD_SPACE_AFTER then
          48 :: List.replicate ((dec_width min_width).toNat - 1) 32
        else
          List.replicate (min 10 (dec_width min_width).toNat - 1) (dec_pad_char padding)
            ++ [48]) := by
    rw [h]
    cases padding <;> simp [pad_type.val, pad_spaces]
  refine ⟨hmain, ?_⟩
  intro hw
  rw [hmain]
  have hw1 : (dec_width min_width).toNat = 1 := by
    unfold dec_width
    split_ifs <;> omega
  rw [hw1]
  split_ifs <;> simp

/-- C6, witness: no width (`min_width = -1`) gives `"0"`. -/
theorem dec_ulong_of_zero_witness : _printk_dec_ulong 0 PAD_NONE (-1) = cstr "0" :=
  (dec_ulong_of_zero PAD_NONE (-1)).2 (by decide)

/-- C6, counterexample: with zero-before padding and width 5 the value 0 is
emitted as `"00000"`, as `"%05d"` does. -/
theorem dec_ulong_of_zero_fails :
    _printk_dec_ulong 0 PAD_ZERO_BEFORE 5 = cstr "00000" ∧
    _printk_dec_ulong 0 PAD_ZERO_BEFORE 5 ≠ cstr "0" ∧
    z_vprintk false (cstr "%05d") [Arg.int 0] = some (cstr "00000") := by
  decide

/-! ## Theorems: the hexadecimal converter -/

theorem nibble_eq (num s : Nat) :
    (num >>> ((s + 1 - 1) <<< 2)) &&& 0xf = num / 16 ^ s % 16 := by
  have h15 : (0xf : Nat) = 2 ^ 4 - 1 := by norm_num
  rw [h15, Nat.and_pow_two_sub_one_eq_mod, Nat.shiftRight_eq_div_pow, Nat.add_sub_cancel,
    Nat.shiftLeft_eq]
  have : 2 ^ (s * 2 ^ 2) = 16 ^ s := by
    rw [show (16 : Nat) = 2 ^ 4 by norm_num, ← pow_mul]
    congr 1
    omega
  rw [this]

theorem hex_loop_succ (num : Nat) (padding : pad_type) (min_width : Int) (s : Nat)
    (found : Bool) (remaining digits : Int) :
    hex_loop num padding min_width (s + 1) found remaining digits =
      if num / 16 ^ s % 16 ≠ 0 ∨ found = true ∨ s + 1 = 1 then
        (hex_char (num / 16 ^ s % 16) ::
          (hex_loop num padding min_width s true remaining (digits + 1)).1,
         (hex_loop num padding min_width s true remaining (digits + 1)).2)
      else
        ((if remaining ≤ min_width then
            (if padding = PAD_ZERO_BEFORE then [48]
             else if padding = PAD_SPACE_BEFORE then [32] else [])
          else []) ++ (hex_loop num padding min_width s found (remaining - 1) digits).1,
         (hex_loop num padding min_width s found (remaining - 1) digits).2) := by
  rw [hex_loop]
  simp only [nibble_eq, hex_char]

theorem fixed_hex_length (s num : Nat) : (fixed_hex s num).length = s := by
  induction s with
  | zero => rfl
  | succ s ih => simp [fixed_hex, ih]

/-- Once a significant nibble has been found the loop emits one digit for each
remaining nibble. -/
theorem hex_loop_found (num : Nat) (padding : pad_type) (min_width : Int) (s : Nat) :
    ∀ (remaining digits : Int),
      hex_loop num padding min_width s true remaining digits =
        (fixed_hex s num, digits + s) := by
  induction s with
  | zero =>
    intro remaining digits
    simp [hex_loop, fixed_hex]
  | succ s ih =>
    intro remaining digits
    rw [hex_loop_succ, if_pos (Or.inr (Or.inl rfl)), ih]
    simp only [fixed_hex, Nat.cast_add, Nat.cast_one]
    congr 1
    ring

/-- Before a significant nibble has been found: for a value whose `s` low
nibbles hold exactly `k + 1` significant digits the loop emits padding for the
suppressed nibbles that lie within the width, then the digits. -/
theorem hex_loop_not_found (num : Nat) (padding : pad_type) (min_width : Int) (s : Nat) :
    ∀ (k : Nat) (digits : Int), k < s → (k = 0 ∨ 16 ^ k ≤ num % 16 ^ s) →
      num % 16 ^ s < 16 ^ (k + 1) →
      hex_loop num padding min_width s false (s : Nat) digits =
        (hex_pad padding (min s min_width.toNat - (k + 1)) ++ fixed_hex (k + 1) num,
          digits + (k + 1 : Nat)) := by
  induction s with
  | zero => intro k digits hk; omega
  | succ s ih =>
    intro k digits hk hlow hr
    rw [hex_loop_succ]
    have hnib : num / 16 ^ s % 16 = num % 16 ^ (s + 1) / 16 ^ s := by
      rw [pow_succ, Nat.mod_mul_right_div_self]
    by_cases hks : k = s
    · subst hks
      have hc : num / 16 ^ k % 16 ≠ 0 ∨ false = true ∨ k + 1 = 1 := by
        rcases hlow with h | h
        · exact Or.inr (Or.inr (by omega))
        · left
          rw [hnib]
          have : 0 < num % 16 ^ (k + 1) / 16 ^ k := Nat.div_pos h (by positivity)
          omega
      rw [if_pos hc, hex_loop_found]
      have h0 : min (k + 1) min_width.toNat - (k + 1) = 0 := by omega
      rw [h0]
      simp only [fixed_hex, hex_pad, List.replicate_zero, ite_self, List.nil_append]
      congr 1
      push_cast
      ring
    · have hks' : k < s := by omega
      have hlt : num % 16 ^ (s + 1) < 16 ^ s :=
        lt_of_lt_of_le hr (Nat.pow_le_pow_right (by decide) (by omega))
      have hz : num / 16 ^ s % 16 = 0 := by
        rw [hnib]
        exact Nat.div_eq_of_lt hlt
      have hmod : num % 16 ^ s = num % 16 ^ (s + 1) := by
        rw [← Nat.mod_mod_of_dvd num (Dvd.intro _ (pow_succ 16 s).symm)]
        exact Nat.mod_eq_of_lt hlt
      have hc : ¬ (num / 16 ^ s % 16 ≠ 0 ∨ false = true ∨ s + 1 = 1) := by
        rw [hz]
        simp
        omega
      have hcast : (((s + 1 : Nat) : Int) - 1) = ((s : Nat) : Int) := by
        push_cast
        ring
      rw [if_neg hc, hcast, ih k digits hks' (by rw [hmod]; exact hlow) (by rw [hmod]; exact hr)]
      congr 1
      rw [← List.append_assoc]
      congr 1
      unfold hex_pad
      by_cases hw : ((s + 1 : Nat) : Int) ≤ min_width
      · have h1 : min (s + 1) min_width.toNat - (k + 1) =
            (min s min_width.toNat - (k + 1)) + 1 := by omega
        rw [if_pos hw, h1]
        split_ifs <;> simp [List.replicate_succ]
      · have h1 : min (s + 1) min_width.toNat = min s min_width.toNat := by omega
        rw [if_neg hw, h1]
        simp

theorem fixed_hex_eq_map (s num : Nat) :
    fixed_hex s num = (fixed_nibbles s num).map hex_char := by
  induction s with
  | zero => rfl
  | succ s ih => simp [fixed_hex, fixed_nibbles, ih]

theorem fixed_nibbles_length (s num : Nat) : (fixed_nibbles s num).length = s := by
  induction s with
  | zero => rfl
  | succ s ih => simp [fixed_nibbles, ih]

theorem fixed_nibbles_lt (s num : Nat) : ∀ d ∈ fixed_nibbles s num, d < 16 := by
  induction s with
  | zero => intro d hd; simp [fixed_nibbles] at hd
  | succ s ih =>
    intro d hd
    simp only [fixed_nibbles, List.mem_cons] at hd
    rcases hd with rfl | hd
    · exact Nat.mod_lt _ (by decide)
    · exact ih d hd

theorem ofDigits_fixed_nibbles (s num : Nat) :
    Nat.ofDigits 16 (fixed_nibbles s num).reverse = num % 16 ^ s := by
  induction s with
  | zero => simp [fixed_nibbles, Nat.mod_one]
  | succ s ih =>
    simp only [fixed_nibbles, List.reverse_cons]
    rw [Nat.ofDigits_append, ih, List.length_reverse, fixed_nibbles_length,
      Nat.ofDigits_singleton, Nat.mod_pow_succ]

/-- A value of exactly `k + 1` hexadecimal digits: its fixed-width digit
string is its canonical representation. -/
theorem fixed_hex_eq_hex_repr (k num : Nat) (hlow : k = 0 ∨ 16 ^ k ≤ num)
    (hr : num < 16 ^ (k + 1)) : fixed_hex (k + 1) num = hex_repr num := by
  by_cases h0 : num = 0
  · subst h0
    have hk : k = 0 := by
      rcases hlow with h | h
      · exact h
      · have : 1 ≤ 16 ^ k := Nat.one_le_pow _ _ (by decide)
        omega
    subst hk
    simp [fixed_hex, hex_repr, hex_char]
  · have hlow' : 16 ^ k ≤ num := by
      rcases hlow with h | h
      · subst h
        simp
        omega
      · exact h
    have hdig : Nat.digits 16 num = (fixed_nibbles (k + 1) num).reverse := by
      conv_lhs => rw [← Nat.mod_eq_of_lt hr, ← ofDigits_fixed_nibbles (k + 1) num]
      apply Nat.digits_ofDigits 16 (by decide)
      · intro d hd
        exact fixed_nibbles_lt (k + 1) num d (List.mem_reverse.mp hd)
      · intro hne
        simp only [fixed_nibbles, List.reverse_cons, List.getLast_append_singleton]
        have h1 : 0 < num / 16 ^ k := Nat.div_pos hlow' (by positivity)
        have h2 : num / 16 ^ k < 16 := by
          rw [Nat.div_lt_iff_lt_mul (by positivity)]
          rw [pow_succ] at hr
          omega
        rw [Nat.mod_eq_of_lt h2]
        omega
    rw [hex_repr, if_neg h0, hdig, List.reverse_reverse, fixed_hex_eq_map]

theorem exists_nibble_count (n num : Nat) (hr : num < 16 ^ (n + 1)) :
    ∃ k, k ≤ n ∧ (k = 0 ∨ 16 ^ k ≤ num) ∧ num < 16 ^ (k + 1) := by
  by_cases h0 : num = 0
  · exact ⟨0, Nat.zero_le _, Or.inl rfl, by subst h0; simp⟩
  · refine ⟨Nat.log 16 num, ?_, Or.inr (Nat.pow_log_le_self 16 h0),
      Nat.lt_pow_succ_log_self (by decide) num⟩
    have := Nat.log_lt_of_lt_pow h0 hr
    omega

theorem hex_repr_length_le (n num : Nat) (hr : num < 16 ^ (n + 1)) :
    (hex_repr num).length ≤ n + 1 := by
  obtain ⟨k, hk, hlow, hr'⟩ := exists_nibble_count n num hr
  rw [← fixed_hex_eq_hex_repr k num hlow hr', fixed_hex_length]
  omega

theorem hex_repr_length_pos (v : Nat) : 1 ≤ (hex_repr v).length := by
  unfold hex_repr
  split_ifs with h
  · simp
  · have : Nat.digits 16 v ≠ [] := Nat.digits_ne_nil_iff_ne_zero.mpr h
    rw [List.length_map, List.length_reverse]
    exact List.length_pos.mpr this

/-- The output of the hexadecimal converter for a 64-bit value: padding before
the digits up to a width of at most sixteen, the canonical digits, and for
`PAD_SPACE_AFTER` the spaces of the final loop, which runs from
`min_width * 2 - digits`. -/
theorem hex_ulong_eq (num : Nat) (hnum : num < 2 ^ 64) (padding : pad_type)
    (min_width : Int) :
    _printk_hex_ulong num padding min_width =
      hex_pad padding (min 16 min_width.toNat - (hex_repr num).length) ++ hex_repr num ++
      (if padding = PAD_SPACE_AFTER then
          pad_spaces (min_width * 2 - (hex_repr num).length)
        else []) := by
  have hnum' : num < 16 ^ (15 + 1) := by norm_num; omega
  obtain ⟨k, hk, hlow, hr⟩ := exists_nibble_count 15 num hnum'
  have hmod : num % 16 ^ 16 = num := Nat.mod_eq_of_lt hnum'
  have hloop := hex_loop_not_found num padding min_width 16 k 0 (by omega)
    (by rw [hmod]; exact hlow) (by rw [hmod]; exact hr)
  have hrepr := fixed_hex_eq_hex_repr k num hlow hr
  have hlen : (hex_repr num).length = k + 1 := by rw [← hrepr, fixed_hex_length]
  have h16 : ((16 : Nat) : Int) = 16 := by norm_num
  rw [h16, hrepr] at hloop
  unfold _printk_hex_ulong
  simp only []
  rw [hloop, hlen]
  simp

theorem hex_char_is_lower_hex (d : Nat) (h : d < 16) : is_lower_hex (hex_char d) := by
  unfold is_lower_hex hex_char
  split_ifs <;> omega

theorem hex_digit_value_hex_char (d : Nat) (h : d < 16) :
    hex_digit_value (hex_char d) = some d := by
  unfold hex_digit_value hex_char
  split_ifs <;> first | omega | (congr 1; omega)

theorem fixed_hex_is_lower_hex (s num : Nat) : ∀ c ∈ fixed_hex s num, is_lower_hex c := by
  induction s with
  | zero => intro c hc; simp [fixed_hex] at hc
  | succ s ih =>
    intro c hc
    simp only [fixed_hex, List.mem_cons] at hc
    rcases hc with rfl | hc
    · exact hex_char_is_lower_hex _ (Nat.mod_lt _ (by decide))
    · exact ih c hc

theorem hex_parse_from_fixed_hex (s num : Nat) :
    ∀ acc, hex_parse_from acc (fixed_hex s num) = some (acc * 16 ^ s + num % 16 ^ s) := by
  induction s with
  | zero => intro acc; simp [fixed_hex, hex_parse_from, Nat.mod_one]
  | succ s ih =>
    intro acc
    simp only [fixed_hex, hex_parse_from]
    rw [hex_digit_value_hex_char _ (Nat.mod_lt _ (by decide))]
    simp only []
    rw [ih, Nat.mod_pow_succ, pow_succ]
    congr 1
    ring

theorem hex_parse_fixed_hex (s num : Nat) (h : num < 16 ^ s) :
    hex_parse (fixed_hex s num) = some num := by
  unfold hex_parse
  rw [hex_parse_from_fixed_hex, Nat.mod_eq_of_lt h]
  simp

/-- Zero nibbles above the significant digits are `'0'` characters. -/
theorem fixed_hex_zero_extend (m num : Nat) (h : num < 16 ^ m) (n : Nat) :
    fixed_hex (m + n) num = List.replicate n 48 ++ fixed_hex m num := by
  induction n with
  | zero => simp
  | succ n ih =>
    have hlt : num < 16 ^ (m + n) :=
      lt_of_lt_of_le h (Nat.pow_le_pow_right (by decide) (by omega))
    rw [← Nat.add_assoc, fixed_hex, ih, Nat.div_eq_of_lt hlt, List.replicate_succ]
    rfl

theorem to_ullong_nat (v : Nat) (h : v < 2 ^ 64) : to_ullong v = v := by
  unfold to_ullong
  omega

/-- C7: for every 64-bit value `v` the hexadecimal converter without padding
emits the canonical lowercase hexadecimal representation of `v`: a non-empty
string of lowercase hexadecimal digits, without a leading `'0'` unless
`v = 0`, that parses in base 16 to `v`; it is what `"%llx"` gives. -/
theorem hex_ulong_roundtrip (v : Nat) (min_width : Int) (hv : v < 2 ^ 64) :
    _printk_hex_ulong v PAD_NONE min_width = hex_repr v ∧
    _printk_hex_ulong v PAD_NONE min_width ≠ [] ∧
    (∀ c ∈ _printk_hex_ulong v PAD_NONE min_width, is_lower_hex c) ∧
    (v ≠ 0 → (_printk_hex_ulong v PAD_NONE min_width).head? ≠ some 48) ∧
    hex_parse (_printk_hex_ulong v PAD_NONE min_width) = some v ∧
    ∀ c64, z_vprintk c64 (cstr "%llx") [Arg.int v] =
      some (_printk_hex_ulong v PAD_NONE (-1)) := by
  have heq : ∀ w, _printk_hex_ulong v PAD_NONE w = hex_repr v := by
    intro w
    rw [hex_ulong_eq v hv]
    simp [hex_pad]
  have hv' : v < 16 ^ (15 + 1) := by norm_num; omega
  obtain ⟨k, hk, hlow, hr⟩ := exists_nibble_count 15 v hv'
  have hrepr := fixed_hex_eq_hex_repr k v hlow hr
  rw [heq min_width, heq (-1)]
  refine ⟨rfl, ?_, ?_, ?_, ?_, ?_⟩
  · intro h
    have := hex_repr_length_pos v
    rw [h] at this
    simp at this
  · rw [← hrepr]
    exact fixed_hex_is_lower_hex _ _
  · intro hne
    rw [← hrepr]
    simp only [fixed_hex, List.head?_cons, ne_eq, Option.some.injEq]
    have hlow' : 16 ^ k ≤ v := by
      rcases hlow with h | h
      · subst h
        simp
        omega
      · exact h
    have h1 : 0 < v / 16 ^ k := Nat.div_pos hlow' (by positivity)
    have h2 : v / 16 ^ k < 16 := by
      rw [Nat.div_lt_iff_lt_mul (by positivity)]
      rw [pow_succ] at hr
      omega
    rw [Nat.mod_eq_of_lt h2]
    unfold hex_char
    split_ifs <;> omega
  · rw [← hrepr]
    exact hex_parse_fixed_hex _ _ hr
  · intro c64
    have e : cstr "%llx" = [37, 108, 108, 120] := by decide
    rw [e, ← heq (-1)]
    simp [z_vprintk, z_vprintk_loop, z_vprintk_step, directive, fmt_state.init, fmt_state.done,
      va_arg_int, to_ullong_nat v hv]

/-- C7, witness: `0xdeadbeef` is emitted as `"deadbeef"`, which parses back. -/
theorem hex_ulong_roundtrip_witness :
    hex_parse (_printk_hex_ulong 3735928559 PAD_NONE (-1)) = some 3735928559 ∧
    z_vprintk false (cstr "%llx") [Arg.int (3735928559 : Nat)] =
      some (_printk_hex_ulong 3735928559 PAD_NONE (-1)) :=
  ⟨(hex_ulong_roundtrip 3735928559 (-1) (by norm_num)).2.2.2.2.1,
   (hex_ulong_roundtrip 3735928559 (-1) (by norm_num)).2.2.2.2.2 false⟩

/-! ## Theorems: the format interpreter -/

theorem z_vprintk_loop_cons (c64 : Bool) (c : Int) (fmt : List Int) (st : fmt_state)
    (ap : va_list) (hc : c ≠ 0) (o : List Int) (st' : fmt_state) (ap' : va_list)
    (h : z_vprintk_step c64 c st ap = some (o, st', ap')) :
    z_vprintk_loop c64 (c :: fmt) st ap = emit_then o (z_vprintk_loop c64 fmt st' ap') := by
  rw [z_vprintk_loop, if_neg hc, h]
  simp only [emit_then]

/-- In literal mode the other locals are dead: they are assigned at the next
`'%'` before they are read. -/
theorem z_vprintk_loop_literal (c64 : Bool) (fmt : List Int) :
    ∀ (st : fmt_state) (ap : va_list), st.might_format = false →
      z_vprintk_loop c64 fmt st ap = z_vprintk_loop c64 fmt fmt_state.init ap := by
  induction fmt with
  | nil => intro st ap _; rfl
  | cons c fmt ih =>
    intro st ap hst
    by_cases hc : c = 0
    · simp [z_vprintk_loop, hc]
    · by_cases h37 : c = 37
      · rw [z_vprintk_loop, z_vprintk_loop, if_neg hc, if_neg hc]
        simp [z_vprintk_step, hst, h37, fmt_state.init]
      · rw [z_vprintk_loop_cons c64 c fmt st ap hc [c] st ap (by simp [z_vprintk_step, hst, h37]),
          z_vprintk_loop_cons c64 c fmt fmt_state.init ap hc [c] fmt_state.init ap
            (by simp [z_vprintk_step, fmt_state.init, h37]),
          ih st ap hst]

/-- A directive that ends the `switch` with `break`: the interpreter emits its
characters and goes on in literal mode. -/
theorem z_vprintk_loop_directive (c64 : Bool) (c : Int) (fmt : List Int) (st : fmt_state)
    (ap : va_list) (hc : c ≠ 0) (hst : st.might_format = true) (o : List Int)
    (st' : fmt_state) (ap' : va_list) (hst' : st'.might_format = false)
    (h : directive c64 c st ap = some (o, st', ap')) :
    z_vprintk_loop c64 (c :: fmt) st ap =
      emit_then o (z_vprintk_loop c64 fmt fmt_state.init ap') := by
  rw [z_vprintk_loop_cons c64 c fmt st ap hc o st' ap' (by simp [z_vprintk_step, hst, h]),
    z_vprintk_loop_literal c64 fmt st' ap' hst']

/-- C8: on a 32-bit target, in directive mode with any flags, width and length
modifier recorded, `p` with a pointer value below `2 ^ 32` emits `"0x"` and
exactly 8 lowercase hexadecimal digits, zero-padded, whose base-16 value is
the pointer; the interpreter then goes on in literal mode. -/
theorem vprintk_pointer (st : fmt_state) (p : Nat) (fmt : List Int) (ap : va_list)
    (hst : st.might_format = true) (hp : p < 2 ^ 32) :
    z_vprintk_loop false (112 :: fmt) st (Arg.ptr p :: ap) =
      emit_then (48 :: 120 :: fixed_hex 8 p) (z_vprintk_loop false fmt fmt_state.init ap) ∧
    (48 :: 120 :: fixed_hex 8 p).length = 10 ∧
    (∀ c ∈ fixed_hex 8 p, is_lower_hex c) ∧
    hex_parse (fixed_hex 8 p) = some p ∧
    fixed_hex 8 p = List.replicate (8 - (hex_repr p).length) 48 ++ hex_repr p := by
  have hp16 : p < 16 ^ (7 + 1) := by norm_num; omega
  have hlen := hex_repr_length_le 7 p hp16
  have hpos := hex_repr_length_pos p
  have hext : fixed_hex 8 p = List.replicate (8 - (hex_repr p).length) 48 ++ hex_repr p := by
    obtain ⟨k, hk, hlow, hr⟩ := exists_nibble_count 7 p hp16
    have hrepr := fixed_hex_eq_hex_repr k p hlow hr
    have hl : (hex_repr p).length = k + 1 := by rw [← hrepr, fixed_hex_length]
    have h8 : 8 = (k + 1) + (8 - (hex_repr p).length) := by omega
    rw [← hrepr]
    conv_lhs => rw [h8]
    rw [fixed_hex_zero_extend (k + 1) p hr, fixed_hex_length, hl]
  refine ⟨?_, by simp [fixed_hex_length], fixed_hex_is_lower_hex 8 p,
    hex_parse_fixed_hex 8 p hp16, hext⟩
  apply z_vprintk_loop_directive false 112 fmt st (Arg.ptr p :: ap) (by decide) hst _
    { st with padding := PAD_ZERO_BEFORE, min_width := 8 }.done ap rfl
  have hul : to_ulong false (p : Int) = p := to_ulong_nat false p hp
  have hhex : _printk_hex_ulong p PAD_ZERO_BEFORE 8 = fixed_hex 8 p := by
    rw [hex_ulong_eq p (by omega), hext]
    have h1 : min 16 (8 : Int).toNat - (hex_repr p).length = 8 - (hex_repr p).length := by
      have : (8 : Int).toNat = 8 := rfl
      omega
    simp [hex_pad, h1]
  simp [directive, va_arg_ptr, hul, hhex]

/-- C8, witness: the pointer `0x1f` gives `"0x0000001f"` for `"%p"`, and as
well for `"%-20p"` and `"%lp"`. -/
theorem vprintk_pointer_witness :
    z_vprintk false (cstr "%p") [Arg.ptr 31] = some (cstr "0x0000001f") ∧
    z_vprintk false (cstr "%-20p") [Arg.ptr 31] = some (cstr "0x0000001f") ∧
    z_vprintk false (cstr "%lp") [Arg.ptr 31] = some (cstr "0x0000001f") ∧
    z_vprintk_loop false (cstr "p")
      { might_format := true, padding := PAD_SPACE_AFTER, min_width := 20, length_mod := 0 }
      [Arg.ptr 31] = some (cstr "0x0000001f") :=
  ⟨by decide, by decide, by decide,
   (vprintk_pointer
      { might_format := true, padding := PAD_SPACE_AFTER, min_width := 20, length_mod := 0 }
      31 [] [] rfl (by norm_num)).1⟩

theorem signed_dec_fst_congr (c64 : Bool) (st st' : fmt_state) (d : Int)
    (hp : st.padding = st'.padding) (hw : st.min_width = st'.min_width) :
    (signed_dec c64 st d).1 = (signed_dec c64 st' d).1 := by
  unfold signed_dec
  split_ifs <;> simp [hp, hw]

theorem signed_dec_done (c64 : Bool) (st : fmt_state) (d : Int) :
    (signed_dec c64 st d).2.might_format = false := by
  unfold signed_dec
  split_ifs <;> rfl

theorem to_llong_of_range (v : Int) (h1 : -2 ^ 63 ≤ v) (h2 : v < 2 ^ 63) : to_llong v = v := by
  unfold to_llong
  omega

theorem to_long_of_range (c64 : Bool) (v : Int) (h1 : -(LONG_MAX c64) - 1 ≤ v)
    (h2 : v ≤ LONG_MAX c64) : to_long c64 v = v := by
  unfold to_long
  unfold LONG_MAX at h1 h2
  cases c64 <;> simp only [LONG_BITS, if_true, if_false, Bool.false_eq_true] at h1 h2 ⊢ <;> omega

theorem to_ullong_of_range (v : Int) (h1 : 0 ≤ v) (h2 : v < 2 ^ 64) :
    (to_ullong v : Int) = v := by
  unfold to_ullong
  omega

theorem to_ulong_of_range (c64 : Bool) (v : Int) (h1 : 0 ≤ v) (h2 : v ≤ ULONG_MAX c64) :
    (to_ulong c64 v : Int) = v := by
  unfold to_ulong
  unfold ULONG_MAX at h2
  cases c64 <;> simp only [LONG_BITS, if_true, if_false, Bool.false_eq_true] at h2 ⊢ <;> omega

/-- C9: in directive mode with the modifier `ll` recorded, `d` and `i` with a
`long long` value above `LONG_MAX` or below `LONG_MIN`, and `u` with an
`unsigned long long` value above `ULONG_MAX`, emit exactly `"ERR"`, whatever
the flags and width, and the interpreter goes on in literal mode; a value
inside the range is formatted as with the modifier `l`. -/
theorem vprintk_long_long (c64 : Bool) (st : fmt_state) (c : Int) (v : Int)
    (fmt : List Int) (ap : va_list) (hst : st.might_format = true)
    (hL : st.length_mod = 76) :
    ((c = 100 ∨ c = 105) → -2 ^ 63 ≤ v → v < 2 ^ 63 →
      ((v > LONG_MAX c64 ∨ v < -(LONG_MAX c64) - 1) →
        z_vprintk_loop c64 (c :: fmt) st (Arg.int v :: ap) =
          emit_then (cstr "ERR") (z_vprintk_loop c64 fmt fmt_state.init ap)) ∧
      (¬ (v > LONG_MAX c64 ∨ v < -(LONG_MAX c64) - 1) →
        z_vprintk_loop c64 (c :: fmt) st (Arg.int v :: ap) =
          z_vprintk_loop c64 (c :: fmt) { st with length_mod := 108 } (Arg.int v :: ap))) ∧
    (c = 117 → 0 ≤ v → v < 2 ^ 64 →
      (v > ULONG_MAX c64 →
        z_vprintk_loop c64 (c :: fmt) st (Arg.int v :: ap) =
          emit_then (cstr "ERR") (z_vprintk_loop c64 fmt fmt_state.init ap)) ∧
      (¬ v > ULONG_MAX c64 →
        z_vprintk_loop c64 (c :: fmt) st (Arg.int v :: ap) =
          z_vprintk_loop c64 (c :: fmt) { st with length_mod := 108 } (Arg.int v :: ap))) := by
  have herr : cstr "ERR" = print_err := by decide
  constructor
  · intro hc h1 h2
    have hc0 : c ≠ 0 := by omega
    have hll := to_llong_of_range v h1 h2
    constructor
    · intro hbig
      rw [herr]
      apply z_vprintk_loop_directive c64 c fmt st (Arg.int v :: ap) hc0 hst print_err st.done ap
        rfl
      rcases hc with rfl | rfl <;> simp [directive, va_arg_int, hL, hll, hbig]
    · intro hin
      have hl := to_long_of_range c64 v (by omega) (by omega)
      rw [z_vprintk_loop_directive c64 c fmt st (Arg.int v :: ap) hc0 hst
          (signed_dec c64 st v).1 (signed_dec c64 st v).2 ap (signed_dec_done c64 st v)
          (by rcases hc with rfl | rfl <;> simp [directive, va_arg_int, hL, hll, hin]),
        z_vprintk_loop_directive c64 c fmt { st with length_mod := 108 } (Arg.int v :: ap) hc0
          hst (signed_dec c64 { st with length_mod := 108 } v).1
          (signed_dec c64 { st with length_mod := 108 } v).2 ap (signed_dec_done c64 _ v)
          (by rcases hc with rfl | rfl <;> simp [directive, va_arg_int, hl]),
        signed_dec_fst_congr c64 st { st with length_mod := 108 } v rfl rfl]
  · intro hc h1 h2
    subst hc
    have hull := to_ullong_of_range v h1 h2
    constructor
    · intro hbig
      rw [herr]
      apply z_vprintk_loop_directive c64 117 fmt st (Arg.int v :: ap) (by decide) hst print_err
        st.done ap rfl
      have hbig' : ULONG_MAX c64 < to_ullong v := by
        have : ((ULONG_MAX c64 : Nat) : Int) < (to_ullong v : Int) := by rw [hull]; exact hbig
        exact_mod_cast this
      simp [directive, va_arg_int, hL, hbig']
    · intro hin
      have hul := to_ulong_of_range c64 v h1 (by omega)
      have heq : to_ullong v = to_ulong c64 v := by
        have : (to_ullong v : Int) = (to_ulong c64 v : Int) := by rw [hull, hul]
        exact_mod_cast this
      have hin' : ¬ ULONG_MAX c64 < to_ullong v := by
        intro h
        apply hin
        have : ((ULONG_MAX c64 : Nat) : Int) < (to_ullong v : Int) := by exact_mod_cast h
        rw [hull] at this
        exact this
      rw [heq] at hin'
      rw [z_vprintk_loop_directive c64 117 fmt st (Arg.int v :: ap) (by decide) hst
          (_printk_dec_ulong (to_ulong c64 v) st.padding st.min_width) st.done ap rfl
          (by simp [directive, va_arg_int, hL, hin', heq]),
        z_vprintk_loop_directive c64 117 fmt { st with length_mod := 108 } (Arg.int v :: ap)
          (by decide) hst (_printk_dec_ulong (to_ulong c64 v) st.padding st.min_width)
          { st with length_mod := 108 }.done ap rfl
          (by simp [directive, va_arg_int])]

/-- C9, witness: on a 32-bit target `"%lld|"` with `2 ^ 31` gives `"ERR|"`,
and with 5 it gives what `"%ld|"` gives. -/
theorem vprintk_long_long_witness :
    z_vprintk_loop false (cstr "d|")
        { might_format := true, padding := PAD_NONE, min_width := -1, length_mod := 76 }
        [Arg.int 2147483648] = some (cstr "ERR|") ∧
    z_vprintk_loop false (cstr "d|")
        { might_format := true, padding := PAD_NONE, min_width := -1, length_mod := 76 }
        [Arg.int 5] =
      z_vprintk_loop false (cstr "d|")
        { might_format := true, padding := PAD_NONE, min_width := -1, length_mod := 108 }
        [Arg.int 5] ∧
    z_vprintk false (cstr "%lld|") [Arg.int 2147483648] = some (cstr "ERR|") ∧
    z_vprintk false (cstr "%-8llu|") [Arg.int 4294967296] = some (cstr "ERR|") :=
  ⟨((vprintk_long_long false
      { might_format := true, padding := PAD_NONE, min_width := -1, length_mod := 76 }
      100 2147483648 (cstr "|") [] rfl rfl).1 (Or.inl rfl) (by norm_num) (by norm_num)).1
      (Or.inl (by decide)),
   ((vprintk_long_long false
      { might_format := true, padding := PAD_NONE, min_width := -1, length_mod := 76 }
      100 5 (cstr "|") [] rfl rfl).1 (Or.inl rfl) (by norm_num) (by norm_num)).2
      (by decide),
   by decide, by decide⟩

/-- C10: in directive mode a character that is not recognised, or a length
modifier that conflicts with the one recorded, makes the interpreter emit
`'%'` and that character, consume no argument, and go on in literal mode. -/
theorem vprintk_unknown (c64 : Bool) (st : fmt_state) (c : Int) (fmt : List Int)
    (ap : va_list) (hst : st.might_format = true) (hc : c ≠ 0)
    (h : ¬ is_directive_char c ∨ length_mod_conflict c st.length_mod) :
    z_vprintk_loop c64 (c :: fmt) st ap =
      emit_then [37, c] (z_vprintk_loop c64 fmt fmt_state.init ap) := by
  apply z_vprintk_loop_directive c64 c fmt st ap hc hst [37, c] st.done ap rfl
  rcases h with h | h
  · unfold is_directive_char at h
    simp only [not_or] at h
    obtain ⟨h1, h2, h3, h4, h5, h6, h7, h8, h9, h10, h11, h12, h13, h14, h15⟩ := h
    have h2' : ¬ (48 ≤ c ∧ c ≤ 57) := h2
    have h0 : c ≠ 48 := by omega
    simp [directive, h1, h2', h0, h3, h4, h5, h6, h7, h8, h9, h10, h11, h12, h13, h14, h15]
  · obtain ⟨hc3, hl0, hh, hl⟩ := h
    have h1 : c ≠ 45 := by omega
    have h2 : ¬ (48 ≤ c ∧ c ≤ 57) := by omega
    have h0 : c ≠ 48 := by omega
    simp [directive, h1, h2, h0, hc3, hl0, hh, hl]

/-- C10, witness: `"%q"` produces `"%q"`; the `l` of `"%hl"`, the third `l` of
`"%lll"` and a second `z` are echoed after `'%'`. -/
theorem vprintk_unknown_witness :
    z_vprintk_loop false (cstr "qab")
        { might_format := true, padding := PAD_NONE, min_width := -1, length_mod := 0 }
        [Arg.int 7] = some (cstr "%qab") ∧
    z_vprintk false (cstr "%q") [] = some (cstr "%q") ∧
    z_vprintk false (cstr "%hld") [] = some (cstr "%ld") ∧
    z_vprintk false (cstr "%llld") [] = some (cstr "%ld") ∧
    z_vprintk false (cstr "%zzd") [] = some (cstr "%zd") :=
  ⟨vprintk_unknown false
      { might_format := true, padding := PAD_NONE, min_width := -1, length_mod := 0 }
      113 (cstr "ab") [Arg.int 7] rfl (by decide) (Or.inl (by decide)),
   by decide, by decide, by decide, by decide⟩

/-! ## Theorems: directives that are malformed or unfinished -/

theorem z_vprintk_loop_eq_run (c64 : Bool) (fmt : List Int) :
    ∀ (st : fmt_state) (ap : va_list),
      z_vprintk_loop c64 fmt st ap = (z_vprintk_run c64 fmt st ap).map Prod.fst := by
  induction fmt with
  | nil => intro st ap; rfl
  | cons c fmt ih =>
    intro st ap
    rw [z_vprintk_loop, z_vprintk_run]
    split_ifs with hc
    · rfl
    · cases hstep : z_vprintk_step c64 c st ap with
      | none => rfl
      | some r =>
        obtain ⟨o, st', ap'⟩ := r
        simp only []
        rw [ih st' ap']
        cases z_vprintk_run c64 fmt st' ap' with
        | none => rfl
        | some r2 => rfl

/-- Running a template `pre ++ rest` without NUL in `pre`: `rest` is run from
the state in which `pre` ends. -/
theorem z_vprintk_run_append_bind (c64 : Bool) (pre rest : List Int) :
    ∀ (st : fmt_state) (ap : va_list), (∀ x ∈ pre, x ≠ 0) →
      z_vprintk_run c64 (pre ++ rest) st ap =
        (z_vprintk_run c64 pre st ap).bind
          (fun r => (z_vprintk_run c64 rest r.2.1 r.2.2).map (fun r2 => (r.1 ++ r2.1, r2.2))) := by
  induction pre with
  | nil =>
    intro st ap _
    rw [List.nil_append]
    cases hr : z_vprintk_run c64 rest st ap <;> simp [z_vprintk_run, hr]
  | cons c pre ih =>
    intro st ap hnz
    have hc : c ≠ 0 := hnz c (List.mem_cons_self _ _)
    have hnz' : ∀ x ∈ pre, x ≠ 0 := fun x hx => hnz x (List.mem_cons_of_mem _ hx)
    rw [List.cons_append, z_vprintk_run, z_vprintk_run, if_neg hc, if_neg hc]
    cases hstep : z_vprintk_step c64 c st ap with
    | none => rfl
    | some r =>
      obtain ⟨o1, st1, ap1⟩ := r
      simp only []
      rw [ih st1 ap1 hnz']
      cases hrun : z_vprintk_run c64 pre st1 ap1 with
      | none => rfl
      | some r2 =>
        obtain ⟨o2, st2, ap2⟩ := r2
        simp only [Option.bind]
        cases hr : z_vprintk_run c64 rest st2 ap2 with
        | none => rfl
        | some r3 => simp

theorem z_vprintk_run_append (c64 : Bool) (pre rest : List Int) (st : fmt_state)
    (ap : va_list) (o : List Int) (st' : fmt_state) (ap' : va_list)
    (hnz : ∀ x ∈ pre, x ≠ 0) (h : z_vprintk_run c64 pre st ap = some (o, st', ap')) :
    z_vprintk_run c64 (pre ++ rest) st ap =
      (z_vprintk_run c64 rest st' ap').map (fun r => (o ++ r.1, r.2)) := by
  rw [z_vprintk_run_append_bind c64 pre rest st ap hnz, h]
  rfl

theorem z_vprintk_loop_append (c64 : Bool) (pre rest : List Int) (st : fmt_state)
    (ap : va_list) (o : List Int) (st' : fmt_state) (ap' : va_list)
    (hnz : ∀ x ∈ pre, x ≠ 0) (h : z_vprintk_run c64 pre st ap = some (o, st', ap')) :
    z_vprintk_loop c64 (pre ++ rest) st ap = emit_then o (z_vprintk_loop c64 rest st' ap') := by
  rw [z_vprintk_loop_eq_run, z_vprintk_run_append c64 pre rest st ap o st' ap' hnz h,
    z_vprintk_loop_eq_run]
  cases hr : z_vprintk_run c64 rest st' ap' <;> simp [emit_then]

/-- Flags and digits are consumed without output and leave the interpreter in
directive mode, with the length modifier it had. -/
theorem z_vprintk_run_flags (c64 : Bool) (flags : List Int) :
    ∀ (st : fmt_state) (ap : va_list), (∀ x ∈ flags, is_flag_or_digit x) →
      st.might_format = true →
      ∃ st', z_vprintk_run c64 flags st ap = some ([], st', ap) ∧
        st'.might_format = true ∧ st'.length_mod = st.length_mod := by
  induction flags with
  | nil => intro st ap _ hst; exact ⟨st, rfl, hst, rfl⟩
  | cons c flags ih =>
    intro st ap hfl hst
    have hc : is_flag_or_digit c := hfl c (List.mem_cons_self _ _)
    have hfl' : ∀ x ∈ flags, is_flag_or_digit x := fun x hx => hfl x (List.mem_cons_of_mem _ hx)
    unfold is_flag_or_digit at hc
    have hc0 : c ≠ 0 := by omega
    have hstep : ∃ st1, z_vprintk_step c64 c st ap = some ([], st1, ap) ∧
        st1.might_format = true ∧ st1.length_mod = st.length_mod := by
      unfold z_vprintk_step directive
      rw [if_neg (by simp [hst])]
      by_cases h45 : c = 45
      · rw [if_pos h45]
        exact ⟨_, rfl, hst, rfl⟩
      · have hd : 48 ≤ c ∧ c ≤ 57 := by omega
        rw [if_neg h45]
        by_cases hz : c = 48 ∧ st.min_width < 0 ∧ st.padding = PAD_NONE
        · rw [if_pos hz]
          exact ⟨_, rfl, hst, rfl⟩
        · rw [if_neg hz, if_pos hd]
          exact ⟨_, rfl, hst, rfl⟩
    obtain ⟨st1, h1, hm1, hl1⟩ := hstep
    obtain ⟨st2, h2, hm2, hl2⟩ := ih st1 ap hfl' hm1
    refine ⟨st2, ?_, hm2, by rw [hl2, hl1]⟩
    rw [z_vprintk_run, if_neg hc0, h1]
    simp only []
    rw [h2]
    rfl

/-- A length modifier run of the grammar is consumed without output when no
modifier is recorded yet, and leaves the interpreter in directive mode. -/
theorem z_vprintk_run_length_mod (c64 : Bool) (lm : List Int) (st : fmt_state)
    (ap : va_list) (hlm : lm ∈ length_mod_runs) (hst : st.might_format = true)
    (h0 : st.length_mod = 0) :
    ∃ st', z_vprintk_run c64 lm st ap = some ([], st', ap) ∧ st'.might_format = true := by
  simp only [length_mod_runs, List.mem_cons, List.mem_singleton, List.not_mem_nil,
    or_false] at hlm
  rcases hlm with rfl | rfl | rfl | rfl | rfl | rfl <;>
    simp [z_vprintk_run, z_vprintk_step, directive, hst, h0]

/-- The `default` case of the `switch`. -/
theorem directive_default (c64 : Bool) (c : Int) (st : fmt_state) (ap : va_list)
    (h : ¬ is_directive_char c) : directive c64 c st ap = some ([37, c], st.done, ap) := by
  unfold is_directive_char at h
  simp only [not_or] at h
  obtain ⟨h1, h2, h3, h4, h5, h6, h7, h8, h9, h10, h11, h12, h13, h14, h15⟩ := h
  have h2' : ¬ (48 ≤ c ∧ c ≤ 57) := h2
  have h0 : c ≠ 48 := by omega
  simp [directive, h1, h2', h0, h3, h4, h5, h6, h7, h8, h9, h10, h11, h12, h13, h14, h15]

/-- A `'%'` met in literal mode followed by flags, digits and a length
modifier run: nothing is emitted and the interpreter is in directive mode. -/
theorem z_vprintk_run_directive_head (c64 : Bool) (flags lm : List Int) (st : fmt_state)
    (ap : va_list) (hst : st.might_format = false)
    (hflags : ∀ x ∈ flags, is_flag_or_digit x) (hlm : lm ∈ length_mod_runs) :
    ∃ st', z_vprintk_run c64 (37 :: flags ++ lm) st ap = some ([], st', ap) ∧
      st'.might_format = true := by
  obtain ⟨st1, h1, hm1, hl1⟩ := z_vprintk_run_flags c64 flags
    { might_format := true, min_width := -1, padding := PAD_NONE, length_mod := 0 } ap
    hflags rfl
  obtain ⟨st2, h2, hm2⟩ := z_vprintk_run_length_mod c64 lm st1 ap hlm hm1 hl1
  have hfn : ∀ x ∈ flags, x ≠ 0 := by
    intro x hx
    have := hflags x hx
    unfold is_flag_or_digit at this
    omega
  refine ⟨st2, ?_, hm2⟩
  rw [List.cons_append, z_vprintk_run, if_neg (by decide)]
  have hstep : z_vprintk_step c64 37 st ap = some ([],
      { might_format := true, min_width := -1, padding := PAD_NONE, length_mod := 0 }, ap) := by
    simp [z_vprintk_step, hst]
  rw [hstep]
  simp only []
  rw [z_vprintk_run_append c64 flags lm _ ap [] st1 ap hfn h1, h2]
  rfl

/-- C11 (amended): a directive that ends in an unsupported conversion
character makes the interpreter emit exactly `'%'` and that character; the
flags, width digits and length modifiers that stand between them in the
template are not emitted, so the output is the directive as written only when
nothing stands between. -/
theorem vprintk_malformed_echo (c64 : Bool) (pre flags lm : List Int) (c : Int)
    (fmt : List Int) (ap ap' : va_list) (o : List Int) (st' : fmt_state)
    (hpre : ∀ x ∈ pre, x ≠ 0)
    (hrun : z_vprintk_run c64 pre fmt_state.init ap = some (o, st', ap'))
    (hlit : st'.might_format = false)
    (hflags : ∀ x ∈ flags, is_flag_or_digit x) (hlm : lm ∈ length_mod_runs)
    (hc : ¬ is_directive_char c) (hc0 : c ≠ 0) :
    z_vprintk c64 (pre ++ (37 :: flags ++ lm) ++ c :: fmt) ap =
      emit_then (o ++ [37, c]) (z_vprintk c64 fmt ap') ∧
    (37 :: flags ++ lm ++ [c] = [37, c] ↔ flags = [] ∧ lm = []) := by
  constructor
  · obtain ⟨st2, h2, hm2⟩ := z_vprintk_run_directive_head c64 flags lm st' ap' hlit hflags hlm
    have hhead : ∀ x ∈ pre ++ (37 :: flags ++ lm), x ≠ 0 := by
      intro x hx
      rw [List.mem_append] at hx
      rcases hx with hx | hx
      · exact hpre x hx
      · rw [List.cons_append, List.mem_cons, List.mem_append] at hx
        rcases hx with rfl | hx | hx
        · decide
        · have := hflags x hx
          unfold is_flag_or_digit at this
          omega
        · simp only [length_mod_runs, List.mem_cons, List.mem_singleton, List.not_mem_nil,
            or_false] at hlm
          rcases hlm with rfl | rfl | rfl | rfl | rfl | rfl <;> simp at hx <;> omega
    have hrun2 : z_vprintk_run c64 (pre ++ (37 :: flags ++ lm)) fmt_state.init ap =
        some (o, st2, ap') := by
      rw [z_vprintk_run_append c64 pre _ _ ap o st' ap' hpre hrun, h2]
      simp
    unfold z_vprintk
    rw [z_vprintk_loop_append c64 _ (c :: fmt) _ ap o st2 ap' hhead hrun2,
      z_vprintk_loop_directive c64 c fmt st2 ap' hc0 hm2 [37, c] st2.done ap' rfl
        (directive_default c64 c st2 ap' hc)]
    cases z_vprintk_loop c64 fmt fmt_state.init ap' <;> simp [emit_then]
  · constructor
    · intro h
      have hlen := congrArg List.length h
      simp only [List.cons_append, List.length_cons, List.length_append, List.length_nil,
        List.length_singleton] at hlen
      exact ⟨List.length_eq_zero.mp (by omega), List.length_eq_zero.mp (by omega)⟩
    · rintro ⟨rfl, rfl⟩
      rfl

/-- C11, witness: after the literal text `"ab"`, the directive `"%-08lq"`
gives `"%q"`. -/
theorem vprintk_malformed_echo_witness :
    z_vprintk false (cstr "ab" ++ (37 :: cstr "-08" ++ cstr "l") ++ 113 :: cstr "cd") [] =
      some (cstr "ab%qcd") :=
  (vprintk_malformed_echo false (cstr "ab") (cstr "-08") (cstr "l") 113 (cstr "cd") [] []
    (cstr "ab") fmt_state.init (by decide) rfl rfl (by decide) (by decide)
    (by decide) (by decide)).1

/-- C11, counterexample: the directive `"%5q"` is emitted as `"%q"`, without
its width digit. -/
theorem vprintk_malformed_echo_fails :
    z_vprintk false (cstr "%5q") [] = some (cstr "%q") ∧
    z_vprintk false (cstr "%5q") [] ≠ some (cstr "%5q") := by
  decide
/-! ## Theorems: the length of the converters' output -/

/-- C12 (amended): with the padding kinds none, zero-before and space-before
the decimal converter emits at most 10 characters for a 32-bit value and the
hexadecimal converter at most 16 for a 64-bit value, whatever the width.  With
space-after padding only the digits are bounded (10 and 16): they are followed
by trailing spaces without a cap, the decimal output having
`max width (number of digits)` characters. -/
theorem converter_length_bound (v : Nat) (padding : pad_type) (min_width : Int) :
    (v < 2 ^ 32 → padding ≠ PAD_SPACE_AFTER →
      (_printk_dec_ulong v padding min_width).length ≤ 10) ∧
    (v < 2 ^ 64 → padding ≠ PAD_SPACE_AFTER →
      (_printk_hex_ulong v padding min_width).length ≤ 16) ∧
    (v < 2 ^ 32 →
      (_printk_dec_ulong v PAD_SPACE_AFTER min_width).length =
        max (dec_width min_width).toNat (dec_repr v).length ∧
      (dec_repr v).length ≤ 10) ∧
    (v < 2 ^ 64 →
      (∃ n, _printk_hex_ulong v PAD_SPACE_AFTER min_width =
        hex_repr v ++ List.replicate n 32) ∧
      (hex_repr v).length ≤ 16) := by
  refine ⟨?_, ?_, ?_, ?_⟩
  · intro hv hp
    have hv' : v < 10 ^ 10 := by omega
    have hlen := dec_repr_length_le v hv'
    have hpos := dec_repr_length_pos v
    rw [dec_ulong_eq v hv', if_neg hp]
    have hval : padding.val < 3 := by cases padding <;> simp [pad_type.val] at hp ⊢
    rw [if_pos hval]
    simp only [List.length_append, List.length_replicate, List.length_nil]
    omega
  · intro hv hp
    have hv' : v < 16 ^ (15 + 1) := by norm_num; omega
    have hlen := hex_repr_length_le 15 v hv'
    have hpos := hex_repr_length_pos v
    rw [hex_ulong_eq v hv, if_neg hp]
    have hpad : (hex_pad padding (min 16 min_width.toNat - (hex_repr v).length)).length ≤
        min 16 min_width.toNat - (hex_repr v).length := by
      unfold hex_pad
      split_ifs <;> simp
    simp only [List.length_append, List.length_nil]
    omega
  · intro hv
    have hv' : v < 10 ^ 10 := by omega
    have hlen := dec_repr_length_le v hv'
    refine ⟨?_, hlen⟩
    rw [dec_ulong_eq v hv']
    simp only [pad_type.val, lt_self_iff_false, if_false, if_true, List.nil_append,
      List.length_append, pad_spaces, List.length_replicate]
    omega
  · intro hv
    have hv' : v < 16 ^ (15 + 1) := by norm_num; omega
    refine ⟨⟨(min_width * 2 - (hex_repr v).length).toNat, ?_⟩, hex_repr_length_le 15 v hv'⟩
    rw [hex_ulong_eq v hv]
    simp [hex_pad, pad_spaces]

/-- C12, witness: the value 42 with space-before padding and width 12 is
emitted in 10 characters, and `0x2a` in 16. -/
theorem converter_length_bound_witness :
    (_printk_dec_ulong 42 PAD_SPACE_BEFORE 12).length ≤ 10 ∧
    (_printk_hex_ulong 42 PAD_SPACE_BEFORE 20).length ≤ 16 :=
  ⟨(converter_length_bound 42 PAD_SPACE_BEFORE 12).1 (by norm_num) (by decide),
   (converter_length_bound 42 PAD_SPACE_BEFORE 20).2.1 (by norm_num) (by decide)⟩

/-- C12, counterexample: with space-after padding and width 20 the value 0 is
emitted in 20 characters by the decimal converter, as `"%-20d"` does, and in
40 by the hexadecimal converter. -/
theorem converter_length_bound_fails :
    (_printk_dec_ulong 0 PAD_SPACE_AFTER 20).length = 20 ∧
    (_printk_hex_ulong 0 PAD_SPACE_AFTER 20).length = 40 ∧
    z_vprintk false (cstr "%-20d") [Arg.int 0] = some (cstr "0                   ") := by
  decide
/-! ## Theorems: the buffered output path -/

theorem str_out_update (buf : Nat → Int) (n : Nat) (x : Int) :
    z_impl_k_str_out (Function.update buf n x) (n + 1) = z_impl_k_str_out buf n ++ [x] := by
  unfold z_impl_k_str_out
  rw [List.range_succ, List.map_append, List.map_singleton, Function.update_same]
  congr 1
  apply List.map_congr_left
  intro i hi
  rw [List.mem_range] at hi
  rw [Function.update_noteq (by omega)]

theorem z_impl_k_str_out_length (buf : Nat → Int) (n : Nat) :
    (z_impl_k_str_out buf n).length = n := by
  simp [z_impl_k_str_out]

theorem buf_inv_step (size : Nat) (p : List Int) (c : Int) (s : buf_state)
    (h : buf_inv size p s) : buf_inv size (p ++ [c]) (buf_char_out size c s) := by
  obtain ⟨hc, hb, hj, hl⟩ := h
  unfold buf_char_out
  simp only []
  split_ifs with hfull
  · refine ⟨?_, ?_, ?_, ?_⟩
    · simp [buf_flush, hc]
    · simp only [buf_flush]
      omega
    · simp only [buf_flush, List.flatten_append, List.flatten_cons, List.flatten_nil, List.append_nil,
        z_impl_k_str_out, List.range_zero, List.map_nil]
      have := str_out_update s.ctx.buf s.ctx.buf_count (to_char c)
      unfold z_impl_k_str_out at this hj
      rw [this, ← List.append_assoc, hj]
      simp
    · intro ch hch
      simp only [buf_flush, List.mem_append, List.mem_singleton] at hch
      rcases hch with hch | rfl
      · exact hl ch hch
      · rw [z_impl_k_str_out_length]
        exact hfull
  · refine ⟨?_, ?_, ?_, hl⟩
    · simp [hc]
    · simp only []
      omega
    · simp only []
      rw [str_out_update, ← List.append_assoc, hj]
      simp

theorem buf_inv_foldl (size : Nat) (l : List Int) :
    ∀ (p : List Int) (s : buf_state), buf_inv size p s →
      buf_inv size (p ++ l) (l.foldl (fun s c => buf_char_out size c s) s) := by
  induction l with
  | nil => intro p s h; simpa using h
  | cons c l ih =>
    intro p s h
    have := ih (p ++ [c]) (buf_char_out size c s) (buf_inv_step size p c s h)
    simpa using this

theorem char_out_foldl (l : List Int) :
    ∀ ctx : out_context, l.foldl (fun ctx c => char_out c ctx) ctx =
      { count := ctx.count + l.length, sink := ctx.sink ++ l } := by
  induction l with
  | nil => intro ctx; simp
  | cons c l ih =>
    intro ctx
    rw [List.foldl_cons, ih]
    simp only [char_out, List.length_cons, Nat.cast_add, Nat.cast_one, List.append_assoc,
      List.singleton_append]
    congr 1
    ring

/-- C13 (amended): for every capacity of at least 1 the chunks the buffered
path hands to `k_str_out`, concatenated in flush order, are the characters the
direct path hands to the sink, each converted to `char` (the same sequence
when every emitted character is a `char` value); every chunk is non-empty,
every chunk but the last has exactly `size` characters, and both paths count
the number of characters. -/
theorem vprintk_buffered (size : Nat) (c64 : Bool) (fmt : List Int) (ap : va_list)
    (o : List Int) (hsize : 1 ≤ size) (hfmt : z_vprintk c64 fmt ap = some o) :
    vprintk size c64 false fmt ap = some ((o.length : Int), [], o) ∧
    ∃ chunks, vprintk size c64 true fmt ap = some ((o.length : Int), chunks, chunks.flatten) ∧
      chunks.flatten = o.map to_char ∧
      ((∀ c ∈ o, to_char c = c) → chunks.flatten = o) ∧
      (∀ ch ∈ chunks, ch ≠ []) ∧
      (∀ ch ∈ chunks.dropLast, ch.length = size) ∧
      (∀ ch ∈ chunks, ch.length ≤ size) := by
  constructor
  · unfold vprintk
    rw [hfmt]
    simp [char_out_foldl]
  · have hinit : buf_inv size []
        { ctx := { count := 0, buf_count := 0, buf := fun _ => 0 }, flushed := [] } := by
      refine ⟨rfl, by simp only []; omega, by simp [z_impl_k_str_out], by simp⟩
    have hinv := buf_inv_foldl size o [] _ hinit
    rw [List.nil_append] at hinv
    obtain ⟨hc, hb, hj, hl⟩ := hinv
    have hmap : (∀ c ∈ o, to_char c = c) → o.map to_char = o := by
      intro h
      conv_rhs => rw [← List.map_id o]
      exact List.map_congr_left h
    unfold vprintk
    rw [hfmt]
    simp only [if_true]
    generalize o.foldl (fun s c => buf_char_out size c s)
      { ctx := { count := 0, buf_count := 0, buf := fun _ => 0 }, flushed := [] } = s
      at hc hb hj hl
    by_cases h0 : s.ctx.buf_count = 0
    · rw [if_neg (by simp [h0])]
      have hj' : s.flushed.flatten = o.map to_char := by
        rw [← hj, h0]
        simp [z_impl_k_str_out]
      refine ⟨s.flushed, by rw [hc], hj', fun h => by rw [hj', hmap h], ?_, ?_, ?_⟩
      · intro ch hch h
        have := hl ch hch
        rw [h] at this
        simp at this
        omega
      · intro ch hch
        exact hl ch (List.mem_of_mem_dropLast hch)
      · intro ch hch
        exact le_of_eq (hl ch hch)
    · rw [if_pos h0]
      have hj' : (buf_flush s).flushed.flatten = o.map to_char := by
        rw [← hj]
        simp [buf_flush]
      refine ⟨(buf_flush s).flushed, by simp [buf_flush, hc], hj',
        fun h => by rw [hj', hmap h], ?_, ?_, ?_⟩
      · intro ch hch h
        simp only [buf_flush, List.mem_append, List.mem_singleton] at hch
        rcases hch with hch | rfl
        · have := hl ch hch
          rw [h] at this
          simp at this
          omega
        · have := z_impl_k_str_out_length s.ctx.buf s.ctx.buf_count
          rw [h] at this
          simp at this
          omega
      · intro ch hch
        simp only [buf_flush, List.dropLast_concat] at hch
        exact hl ch hch
      · intro ch hch
        simp only [buf_flush, List.mem_append, List.mem_singleton] at hch
        rcases hch with hch | rfl
        · exact le_of_eq (hl ch hch)
        · rw [z_impl_k_str_out_length]
          omega

/-- C13, witness: with a capacity of 4, `"%s"` with `"hello world"` is handed
over as `"hell"`, `"o wo"`, `"rld"`. -/
theorem vprintk_buffered_witness :
    vprintk 4 false true (cstr "%s") [Arg.str (cstr "hello world")] =
      some (11, [cstr "hell", cstr "o wo", cstr "rld"], cstr "hello world") ∧
    ∃ chunks, vprintk 4 false true (cstr "%s") [Arg.str (cstr "hello world")] =
        some (11, chunks, chunks.flatten) ∧ chunks.flatten = cstr "hello world" := by
  obtain ⟨_, chunks, h1, _, h3, _⟩ := vprintk_buffered 4 false (cstr "%s")
    [Arg.str (cstr "hello world")] (cstr "hello world") (by decide) (by decide)
  exact ⟨by decide, chunks, h1, h3 (by decide)⟩

/-- C13, counterexample: `"%c"` with the value 300 hands 300 to the sink on
the direct path and 44, the value stored in the `char` buffer, on the buffered
path. -/
theorem vprintk_buffered_fails :
    vprintk 4 false false (cstr "%c") [Arg.int 300] = some (1, [], [300]) ∧
    vprintk 4 false true (cstr "%c") [Arg.int 300] = some (1, [[44]], [44]) ∧
    [[(44 : Int)]].flatten ≠ [300] := by
  decide
/-! ## Theorems: signed decimal, hexadecimal case, strings -/

theorem to_int_of_range (v : Int) (h1 : -2 ^ 31 ≤ v) (h2 : v < 2 ^ 31) : to_int v = v := by
  unfold to_int
  omega

theorem signed_dec_neg (c64 : Bool) (st : fmt_state) (d : Int) (h : d < 0) :
    signed_dec c64 st d =
      (45 :: _printk_dec_ulong (to_ulong c64 (-d)) st.padding (st.min_width - 1),
        { st with min_width := st.min_width - 1 }.done) := by
  unfold signed_dec
  rw [if_pos h]

/-- The cases `d` and `i` for a value that every integer type of the
interpreter holds unchanged. -/
theorem directive_signed_int (c64 : Bool) (c : Int) (st : fmt_state) (v : Int)
    (ap : va_list) (hc : c = 100 ∨ c = 105) (h1 : -2 ^ 31 ≤ v) (h2 : v < 2 ^ 31) :
    directive c64 c st (Arg.int v :: ap) =
      some ((signed_dec c64 st v).1, (signed_dec c64 st v).2, ap) := by
  have hi := to_int_of_range v h1 h2
  have hll := to_llong_of_range v (by omega) (by omega)
  have hmax : (2 : Int) ^ 31 - 1 ≤ LONG_MAX c64 := by
    unfold LONG_MAX LONG_BITS
    cases c64 <;> norm_num
  have hl := to_long_of_range c64 v (by omega) (by omega)
  have hin : ¬ (v > LONG_MAX c64 ∨ v < -(LONG_MAX c64) - 1) := by omega
  rcases hc with rfl | rfl <;>
    (simp only [directive, va_arg_int, hi, hl, hll, hin]
     simp)

/-- C14: for every negative `int` value `v`, in directive mode with any
padding kind, width and length modifier recorded, `d` and `i` emit `'-'`
followed by what the decimal converter emits for `|v|` with the same padding
and the width decreased by one; with no width the output is `'-'` and the
canonical digits of `|v|`, also for the most negative value. -/
theorem vprintk_negative_dec (c64 : Bool) (st : fmt_state) (c : Int) (v : Int)
    (fmt : List Int) (ap : va_list) (hst : st.might_format = true)
    (hc : c = 100 ∨ c = 105) (h1 : -2 ^ 31 ≤ v) (h2 : v < 0) :
    z_vprintk_loop c64 (c :: fmt) st (Arg.int v :: ap) =
      emit_then (45 :: _printk_dec_ulong (-v).toNat st.padding (st.min_width - 1))
        (z_vprintk_loop c64 fmt fmt_state.init ap) ∧
    z_vprintk c64 [37, c] [Arg.int v] = some (45 :: dec_repr (-v).toNat) := by
  have hc0 : c ≠ 0 := by omega
  have hul : to_ulong c64 (-v) = (-v).toNat := by
    have h := to_ulong_nat c64 (-v).toNat (by omega)
    rw [Int.toNat_of_nonneg (by omega)] at h
    exact h
  have hdir : ∀ (st' : fmt_state) (ap' : va_list), directive c64 c st' (Arg.int v :: ap') =
      some (45 :: _printk_dec_ulong (-v).toNat st'.padding (st'.min_width - 1),
        { st' with min_width := st'.min_width - 1 }.done, ap') := by
    intro st' ap'
    rw [directive_signed_int c64 c st' v ap' hc h1 (by omega), signed_dec_neg c64 st' v h2, hul]
  constructor
  · exact z_vprintk_loop_directive c64 c fmt st (Arg.int v :: ap) hc0 hst _ _ ap rfl
      (hdir st ap)
  · have hdec : _printk_dec_ulong (-v).toNat PAD_NONE (-2) = dec_repr (-v).toNat := by
      rw [dec_ulong_eq _ (by omega)]
      have hpos := dec_repr_length_pos (-v).toNat
      have hw : (dec_width (-2)).toNat = 1 := by decide
      have h0 : min 10 (dec_width (-2)).toNat - (dec_repr (-v).toNat).length = 0 := by
        omega
      rw [h0]
      simp
    have hdir' : directive c64 c
        { might_format := true, min_width := -1, padding := PAD_NONE, length_mod := 0 }
        [Arg.int v] = some (45 :: dec_repr (-v).toNat,
          { might_format := false, min_width := -2, padding := PAD_NONE, length_mod := 0 },
          []) := by
      rw [hdir]
      simp only [fmt_state.done]
      norm_num
      exact hdec
    unfold z_vprintk
    rw [z_vprintk_loop_cons c64 37 [c] fmt_state.init [Arg.int v] (by decide) []
        { might_format := true, min_width := -1, padding := PAD_NONE, length_mod := 0 }
        [Arg.int v] (by simp [z_vprintk_step, fmt_state.init]),
      z_vprintk_loop_directive c64 c [] _ [Arg.int v] hc0 rfl _ _ [] rfl hdir']
    simp [emit_then, z_vprintk_loop]

/-- C14, witness: `"%5d"` with -42 gives `"-  42"`, and `"%d"` with the most
negative 32-bit value gives `"-2147483648"`. -/
theorem vprintk_negative_dec_witness :
    z_vprintk_loop false (cstr "d")
        { might_format := true, padding := PAD_SPACE_BEFORE, min_width := 5, length_mod := 0 }
        [Arg.int (-42)] = some (cstr "-  42") ∧
    z_vprintk false (cstr "%5d") [Arg.int (-42)] = some (cstr "-  42") ∧
    z_vprintk false (cstr "%d") [Arg.int (-2147483648)] = some (cstr "-2147483648") := by
  have h := (vprintk_negative_dec false
    { might_format := true, padding := PAD_SPACE_BEFORE, min_width := 5, length_mod := 0 }
    100 (-42) [] [] rfl (Or.inl rfl) (by norm_num) (by norm_num)).1
  exact ⟨h, by decide, by decide⟩

theorem hex_repr_is_lower_hex (v : Nat) : ∀ c ∈ hex_repr v, is_lower_hex c := by
  intro c hc
  unfold hex_repr at hc
  split_ifs at hc with h
  · simp only [List.mem_singleton] at hc
    subst hc
    decide
  · simp only [List.mem_map, List.mem_reverse] at hc
    obtain ⟨d, hd, rfl⟩ := hc
    exact hex_char_is_lower_hex d (Nat.digits_lt_base (by decide) hd)

/-- Every character the hexadecimal converter emits is a lowercase
hexadecimal digit or a space. -/
theorem hex_ulong_chars (x : Nat) (hx : x < 2 ^ 64) (padding : pad_type) (min_width : Int) :
    ∀ c ∈ _printk_hex_ulong x padding min_width, is_lower_hex c ∨ c = 32 := by
  intro c hc
  rw [hex_ulong_eq x hx, List.mem_append, List.mem_append] at hc
  rcases hc with (hc | hc) | hc
  · unfold hex_pad at hc
    split_ifs at hc
    · left
      rw [List.eq_of_mem_replicate hc]
      decide
    · right
      exact List.eq_of_mem_replicate hc
    · simp at hc
  · exact Or.inl (hex_repr_is_lower_hex x c hc)
  · split_ifs at hc
    · right
      exact List.eq_of_mem_replicate hc
    · simp at hc

theorem hex_arg_lt (c64 : Bool) (length_mod v : Int) :
    (if length_mod = 108 then to_ulong c64 v
      else if length_mod = 76 then to_ullong v else to_uint v) < 2 ^ 64 := by
  have h1 : to_ulong c64 v < 2 ^ 64 := by
    unfold to_ulong LONG_BITS
    cases c64 <;> simp only [if_true, if_false, Bool.false_eq_true] <;> omega
  have h2 : to_ullong v < 2 ^ 64 := by
    unfold to_ullong
    omega
  have h3 : to_uint v < 2 ^ 64 := by
    unfold to_uint
    omega
  split_ifs <;> assumption

/-- C17: in directive mode, with any flags, width and length modifier
recorded and any argument, `X` does what `x` does, and every character the
directive emits is a lowercase hexadecimal digit or a padding space: no
upper-case letter is produced. -/
theorem vprintk_hex_upper (c64 : Bool) (st : fmt_state) (fmt : List Int) (ap : va_list)
    (hst : st.might_format = true) :
    z_vprintk_loop c64 (88 :: fmt) st ap = z_vprintk_loop c64 (120 :: fmt) st ap ∧
    directive c64 88 st ap = directive c64 120 st ap ∧
    ∀ (v : Int) (ap' : va_list), ap = Arg.int v :: ap' →
      ∃ o, directive c64 88 st ap = some (o, st.done, ap') ∧
        ∀ ch ∈ o, (is_lower_hex ch ∨ ch = 32) ∧ ¬ (65 ≤ ch ∧ ch ≤ 70) := by
  have hd : directive c64 88 st ap = directive c64 120 st ap := by
    simp [directive]
  refine ⟨?_, hd, ?_⟩
  · rw [z_vprintk_loop, z_vprintk_loop, if_neg (by decide), if_neg (by decide)]
    simp only [z_vprintk_step, hst, Bool.true_eq_false, if_false, hd]
  · intro v ap' hap
    subst hap
    refine ⟨_printk_hex_ulong (if st.length_mod = 108 then to_ulong c64 v
      else if st.length_mod = 76 then to_ullong v else to_uint v) st.padding st.min_width,
      by simp [directive, va_arg_int], ?_⟩
    intro ch hch
    have h := hex_ulong_chars _ (hex_arg_lt c64 st.length_mod v) st.padding st.min_width ch hch
    refine ⟨h, ?_⟩
    unfold is_lower_hex at h
    omega

/-- C17, witness: `"%X"` and `"%x"` with 255 both give `"ff"`. -/
theorem vprintk_hex_upper_witness :
    z_vprintk_loop false (cstr "X|")
        { might_format := true, padding := PAD_NONE, min_width := -1, length_mod := 0 }
        [Arg.int 255] =
      z_vprintk_loop false (cstr "x|")
        { might_format := true, padding := PAD_NONE, min_width := -1, length_mod := 0 }
        [Arg.int 255] ∧
    z_vprintk false (cstr "%X") [Arg.int 255] = some (cstr "ff") ∧
    z_vprintk false (cstr "%x") [Arg.int 255] = some (cstr "ff") :=
  ⟨(vprintk_hex_upper false
      { might_format := true, padding := PAD_NONE, min_width := -1, length_mod := 0 }
      (cstr "|") [Arg.int 255] rfl).1, by decide, by decide⟩

theorem c_string_of_no_nul (s : List Int) (hs : ∀ x ∈ s, x ≠ 0) : c_string s = s := by
  unfold c_string
  rw [List.takeWhile_eq_self_iff]
  intro x hx
  simpa using hs x hx

/-- C18: in directive mode `s` with a string of `n` characters emits these
characters verbatim; if the padding kind is space-after (the flag `'-'`) it
then emits `max 0 (w - n)` spaces for the recorded width `w`, the total being
`max w n` characters, and with any other padding kind it emits no padding. -/
theorem vprintk_string (c64 : Bool) (st : fmt_state) (s : List Int) (fmt : List Int)
    (ap : va_list) (hst : st.might_format = true) (hs : ∀ x ∈ s, x ≠ 0) :
    z_vprintk_loop c64 (115 :: fmt) st (Arg.str s :: ap) =
      emit_then
        (s ++ (if st.padding = PAD_SPACE_AFTER
                then List.replicate (st.min_width - s.length).toNat 32 else []))
        (z_vprintk_loop c64 fmt fmt_state.init ap) ∧
    ((s ++ List.replicate (st.min_width - s.length).toNat 32).length : Int) =
      max st.min_width s.length := by
  constructor
  · apply z_vprintk_loop_directive c64 115 fmt st (Arg.str s :: ap) (by decide) hst _ st.done
      ap rfl
    simp [directive, va_arg_str, c_string_of_no_nul s hs, pad_spaces]
  · rw [List.length_append, List.length_replicate]
    push_cast
    omega

/-- C18, witness: `"abc"` gives `"abc     "` for `"%-8s"` and `"abc"` for
`"%8s"`, `"%08s"` and `"%s"`. -/
theorem vprintk_string_witness :
    z_vprintk_loop false (cstr "s|")
        { might_format := true, padding := PAD_SPACE_AFTER, min_width := 8, length_mod := 0 }
        [Arg.str (cstr "abc")] = some (cstr "abc     |") ∧
    z_vprintk false (cstr "%-8s|") [Arg.str (cstr "abc")] = some (cstr "abc     |") ∧
    z_vprintk false (cstr "%8s|") [Arg.str (cstr "abc")] = some (cstr "abc|") ∧
    z_vprintk false (cstr "%08s|") [Arg.str (cstr "abc")] = some (cstr "abc|") ∧
    z_vprintk false (cstr "%s|") [Arg.str (cstr "abc")] = some (cstr "abc|") :=
  ⟨(vprintk_string false
      { might_format := true, padding := PAD_SPACE_AFTER, min_width := 8, length_mod := 0 }
      (cstr "abc") (cstr "|") [] rfl (by decide)).1, by decide, by decide, by decide, by decide⟩
/-! ## Theorems: space-after padding of the hexadecimal converter -/

/-- The output of the hexadecimal converter with space-after padding: the
digits, then the spaces of the loop that runs from `min_width * 2 - digits`. -/
theorem hex_ulong_space_after_eq (v : Nat) (hv : v < 2 ^ 64) (min_width : Int) :
    _printk_hex_ulong v PAD_SPACE_AFTER min_width =
      hex_repr v ++ List.replicate (min_width * 2 - (hex_repr v).length).toNat 32 := by
  rw [hex_ulong_eq v hv]
  simp [hex_pad, pad_spaces]

/-- C19, the code at the failing input: with space-after padding and width 4
the value `0x1f` is emitted as its two digits followed by six spaces, eight
characters, as `"%-4x"` does, where `"%-4d"` pads 31 to four characters. -/
theorem hex_ulong_space_after_fails :
    _printk_hex_ulong 31 PAD_SPACE_AFTER 4 = cstr "1f      " ∧
    (_printk_hex_ulong 31 PAD_SPACE_AFTER 4).length = 8 ∧
    z_vprintk false (cstr "%-4x") [Arg.int 31] = some (cstr "1f      ") ∧
    z_vprintk false (cstr "%-4d") [Arg.int 31] = some (cstr "31  ") := by
  decide

/-! ## Theorems: a template that ends inside a directive -/

/-- A case of the `switch` for a character that is not a flag, a digit or a
length modifier ends with `break`: the interpreter is in literal mode. -/
theorem directive_break (c64 : Bool) (c : Int) (st : fmt_state) (ap : va_list)
    (o : List Int) (st2 : fmt_state) (ap2 : va_list)
    (hc : ¬ (is_flag_or_digit c ∨ c = 104 ∨ c = 108 ∨ c = 122))
    (h : directive c64 c st ap = some (o, st2, ap2)) : st2.might_format = false := by
  unfold is_flag_or_digit at hc
  have h45 : ¬ c = 45 := by omega
  have h48 : ¬ (c = 48 ∧ st.min_width < 0 ∧ st.padding = PAD_NONE) := by omega
  have hdig : ¬ (48 ≤ c ∧ c ≤ 57) := by omega
  have hlm : ¬ (c = 104 ∨ c = 108 ∨ c = 122) := by omega
  unfold directive at h
  rw [if_neg h45, if_neg h48, if_neg hdig, if_neg hlm] at h
  by_cases hd : c = 100 ∨ c = 105
  · rw [if_pos hd] at h
    split at h
    · exact absurd h (by simp)
    · dsimp only at h
      split_ifs at h <;> simp only [Option.some.injEq, Prod.mk.injEq] at h <;>
        obtain ⟨-, rfl, -⟩ := h <;> first | exact signed_dec_done _ _ _ | rfl
  rw [if_neg hd] at h
  by_cases hu : c = 117
  · rw [if_pos hu] at h
    split at h
    · exact absurd h (by simp)
    · dsimp only at h
      split_ifs at h <;> simp only [Option.some.injEq, Prod.mk.injEq] at h <;>
        obtain ⟨-, rfl, -⟩ := h <;> rfl
  rw [if_neg hu] at h
  by_cases hp : c = 112
  · rw [if_pos hp] at h
    split at h
    · exact absurd h (by simp)
    · simp only [Option.some.injEq, Prod.mk.injEq] at h
      obtain ⟨-, rfl, -⟩ := h
      rfl
  rw [if_neg hp] at h
  by_cases hx : c = 120 ∨ c = 88
  · rw [if_pos hx] at h
    split at h
    · exact absurd h (by simp)
    · simp only [Option.some.injEq, Prod.mk.injEq] at h
      obtain ⟨-, rfl, -⟩ := h
      rfl
  rw [if_neg hx] at h
  by_cases hs : c = 115
  · rw [if_pos hs] at h
    split at h
    · exact absurd h (by simp)
    · simp only [Option.some.injEq, Prod.mk.injEq] at h
      obtain ⟨-, rfl, -⟩ := h
      rfl
  rw [if_neg hs] at h
  by_cases hcc : c = 99
  · rw [if_pos hcc] at h
    split at h
    · exact absurd h (by simp)
    · simp only [Option.some.injEq, Prod.mk.injEq] at h
      obtain ⟨-, rfl, -⟩ := h
      rfl
  rw [if_neg hcc] at h
  by_cases hf : c = 102
  · rw [if_pos hf] at h
    split at h
    · exact absurd h (by simp)
    · simp only [Option.some.injEq, Prod.mk.injEq] at h
      obtain ⟨-, rfl, -⟩ := h
      rfl
  rw [if_neg hf] at h
  split_ifs at h <;> simp only [Option.some.injEq, Prod.mk.injEq] at h <;>
    obtain ⟨-, rfl, -⟩ := h <;> rfl

/-- A case of the `switch` that leaves the interpreter in directive mode is a
flag, a digit or a length modifier: it emits nothing and consumes no
argument. -/
theorem directive_still (c64 : Bool) (c : Int) (st : fmt_state) (ap : va_list)
    (o : List Int) (st2 : fmt_state) (ap2 : va_list)
    (h : directive c64 c st ap = some (o, st2, ap2)) (hm : st2.might_format = true) :
    o = [] ∧ ap2 = ap ∧ (is_flag_or_digit c ∨ c = 104 ∨ c = 108 ∨ c = 122) := by
  by_cases hc : is_flag_or_digit c ∨ c = 104 ∨ c = 108 ∨ c = 122
  · have hc' := hc
    unfold is_flag_or_digit at hc'
    suffices hs : o = [] ∧ ap2 = ap from ⟨hs.1, hs.2, hc⟩
    unfold directive at h
    by_cases h45 : c = 45
    · rw [if_pos h45] at h
      simp only [Option.some.injEq, Prod.mk.injEq] at h
      exact ⟨h.1.symm, h.2.2.symm⟩
    rw [if_neg h45] at h
    by_cases h48 : c = 48 ∧ st.min_width < 0 ∧ st.padding = PAD_NONE
    · rw [if_pos h48] at h
      simp only [Option.some.injEq, Prod.mk.injEq] at h
      exact ⟨h.1.symm, h.2.2.symm⟩
    rw [if_neg h48] at h
    by_cases hdig : 48 ≤ c ∧ c ≤ 57
    · rw [if_pos hdig] at h
      simp only [Option.some.injEq, Prod.mk.injEq] at h
      exact ⟨h.1.symm, h.2.2.symm⟩
    rw [if_neg hdig, if_pos (by omega)] at h
    split_ifs at h <;> simp only [Option.some.injEq, Prod.mk.injEq] at h <;>
      first
        | exact ⟨h.1.symm, h.2.2.symm⟩
        | (obtain ⟨-, rfl, -⟩ := h
           exact absurd hm (by simp [fmt_state.done]))
  · have := directive_break c64 c st ap o st2 ap2 hc h
    rw [this] at hm
    exact absurd hm (by decide)

theorem z_vprintk_run_singleton (c64 : Bool) (c : Int) (st : fmt_state) (ap : va_list)
    (hc : c ≠ 0) :
    z_vprintk_run c64 [c] st ap =
      (z_vprintk_step c64 c st ap).map (fun r => (r.1 ++ [], r.2)) := by
  rw [z_vprintk_run, if_neg hc]
  cases z_vprintk_step c64 c st ap with
  | none => rfl
  | some r => rfl

/-- A template without NUL after which the interpreter is in directive mode
ends in a `'%'` met in literal mode and followed only by flags, digits and
length modifiers, for which nothing was emitted and no argument consumed. -/
theorem z_vprintk_run_unfinished (c64 : Bool) (t : List Int) :
    ∀ (ap : va_list) (o : List Int) (st : fmt_state) (ap' : va_list),
      (∀ x ∈ t, x ≠ 0) → z_vprintk_run c64 t fmt_state.init ap = some (o, st, ap') →
      st.might_format = true →
      ∃ pre mid st', t = pre ++ 37 :: mid ∧
        (∀ x ∈ mid, is_flag_or_digit x ∨ x = 104 ∨ x = 108 ∨ x = 122) ∧
        z_vprintk_run c64 pre fmt_state.init ap = some (o, st', ap') ∧
        st'.might_format = false := by
  induction t using List.reverseRecOn with
  | nil =>
    intro ap o st ap' _ h hm
    simp only [z_vprintk_run, Option.some.injEq, Prod.mk.injEq] at h
    obtain ⟨-, rfl, -⟩ := h
    exact absurd hm (by decide)
  | append_singleton t c ih =>
    intro ap o st ap' hnz h hm
    have hc : c ≠ 0 := hnz c (by simp)
    have hnz' : ∀ x ∈ t, x ≠ 0 := fun x hx => hnz x (by simp [hx])
    rw [z_vprintk_run_append_bind c64 t [c] _ ap hnz'] at h
    cases hrun : z_vprintk_run c64 t fmt_state.init ap with
    | none => rw [hrun] at h; exact absurd h (by simp)
    | some r1 =>
      obtain ⟨o1, st1, ap1⟩ := r1
      rw [hrun, Option.bind, z_vprintk_run_singleton c64 c st1 ap1 hc] at h
      cases hstep : z_vprintk_step c64 c st1 ap1 with
      | none => rw [hstep] at h; exact absurd h (by simp)
      | some r2 =>
        obtain ⟨o2, st2, ap2⟩ := r2
        rw [hstep] at h
        simp only [Option.map_some', Option.some.injEq, Prod.mk.injEq, List.append_nil] at h
        obtain ⟨rfl, rfl, rfl⟩ := h
        by_cases hlit : st1.might_format = false
        · have hstep' := hstep
          unfold z_vprintk_step at hstep'
          rw [if_pos hlit] at hstep'
          by_cases h37 : c = 37
          · rw [if_neg (by simp [h37])] at hstep'
            simp only [Option.some.injEq, Prod.mk.injEq] at hstep'
            obtain ⟨rfl, -, rfl⟩ := hstep'
            exact ⟨t, [], st1, by rw [h37], by simp, by rw [hrun]; simp, hlit⟩
          · rw [if_pos h37] at hstep'
            simp only [Option.some.injEq, Prod.mk.injEq] at hstep'
            obtain ⟨-, rfl, -⟩ := hstep'
            rw [hlit] at hm
            exact absurd hm (by decide)
        · have hdir : st1.might_format = true := by simpa using hlit
          have hstep' := hstep
          unfold z_vprintk_step at hstep'
          rw [if_neg hlit] at hstep'
          obtain ⟨rfl, rfl, hfl⟩ := directive_still c64 c st1 ap1 o2 st2 ap2 hstep' hm
          obtain ⟨pre, mid, st', ht, hmid, hpre, hst'⟩ := ih ap o1 st1 _ hnz' hrun hdir
          refine ⟨pre, mid ++ [c], st', by rw [ht]; simp, ?_, by rw [hpre]; simp, hst'⟩
          intro x hx
          rw [List.mem_append, List.mem_singleton] at hx
          rcases hx with hx | rfl
          · exact hmid x hx
          · exact hfl

/-- C20: a template (without NUL) that ends while the interpreter is in
directive mode ends in a `'%'` followed only by flags, width digits and length
modifiers; the output is the output of the template with that trailing part
removed, and the arguments left are those left after the part before it. -/
theorem vprintk_unfinished (c64 : Bool) (t : List Int) (ap : va_list) (o : List Int)
    (st : fmt_state) (ap' : va_list) (hnz : ∀ x ∈ t, x ≠ 0)
    (hrun : z_vprintk_run c64 t fmt_state.init ap = some (o, st, ap'))
    (hdir : st.might_format = true) :
    ∃ pre mid st', t = pre ++ 37 :: mid ∧
      (∀ x ∈ mid, is_flag_or_digit x ∨ x = 104 ∨ x = 108 ∨ x = 122) ∧
      z_vprintk_run c64 pre fmt_state.init ap = some (o, st', ap') ∧
      st'.might_format = false ∧
      z_vprintk c64 t ap = some o ∧ z_vprintk c64 pre ap = some o := by
  obtain ⟨pre, mid, st', ht, hmid, hpre, hst'⟩ :=
    z_vprintk_run_unfinished c64 t ap o st ap' hnz hrun hdir
  refine ⟨pre, mid, st', ht, hmid, hpre, hst', ?_, ?_⟩
  · unfold z_vprintk
    rw [z_vprintk_loop_eq_run, hrun]
    rfl
  · unfold z_vprintk
    rw [z_vprintk_loop_eq_run, hpre]
    rfl

/-- C20, witness: `"100%"` gives `"100"`, and `"abc%-5l"` gives `"abc"` and
leaves its argument. -/
theorem vprintk_unfinished_witness :
    (∃ pre mid st', cstr "abc%-5l" = pre ++ 37 :: mid ∧
      (∀ x ∈ mid, is_flag_or_digit x ∨ x = 104 ∨ x = 108 ∨ x = 122) ∧
      z_vprintk_run false pre fmt_state.init [Arg.int 7] = some (cstr "abc", st', [Arg.int 7]) ∧
      st'.might_format = false ∧
      z_vprintk false (cstr "abc%-5l") [Arg.int 7] = some (cstr "abc") ∧
      z_vprintk false pre [Arg.int 7] = some (cstr "abc")) ∧
    z_vprintk false (cstr "100%") [] = some (cstr "100") ∧
    z_vprintk false (cstr "100") [] = some (cstr "100") :=
  ⟨vprintk_unfinished false (cstr "abc%-5l") [Arg.int 7] (cstr "abc")
      { might_format := true, padding := PAD_SPACE_AFTER, min_width := 5, length_mod := 108 }
      [Arg.int 7] (by decide) rfl rfl,
   by decide, by decide⟩
/-! ## Theorems: the fatal error handler -/

theorem printk_eq (c64 : Bool) (fmt : List Int) (ap : va_list) :
    printk c64 fmt ap = z_vprintk c64 fmt ap := by
  unfold printk
  cases z_vprintk c64 fmt ap with
  | none => rfl
  | some o => simp [char_out_foldl]

/-- The second call of `printk` always prints its line. -/
theorem fatal_context_line_eq (thread pc : Nat) :
    fatal_context_line thread pc =
      some (cstr "Current thread ID = " ++
        (48 :: 120 :: _printk_hex_ulong (to_ulong false thread) PAD_ZERO_BEFORE 8) ++
        cstr ", Faulting instruction address = 0x" ++
        _printk_hex_ulong (to_uint pc) PAD_NONE (-1) ++ [10]) := by
  have e : cstr "Current thread ID = %p, Faulting instruction address = 0x%x\n" =
      cstr "Current thread ID = " ++ (37 :: 112 ::
        (cstr ", Faulting instruction address = 0x" ++ [37, 120, 10])) := by decide
  have r1 : z_vprintk_run false (cstr "Current thread ID = ") fmt_state.init
      [Arg.ptr thread, Arg.int pc] =
      some (cstr "Current thread ID = ", fmt_state.init, [Arg.ptr thread, Arg.int pc]) := rfl
  have r2 : z_vprintk_run false (cstr ", Faulting instruction address = 0x") fmt_state.init
      [Arg.int pc] =
      some (cstr ", Faulting instruction address = 0x", fmt_state.init, [Arg.int pc]) := rfl
  have s1 : z_vprintk_loop false [37, 120, 10] fmt_state.init [Arg.int pc] =
      some (_printk_hex_ulong (to_uint pc) PAD_NONE (-1) ++ [10]) := by
    rw [z_vprintk_loop_cons false 37 [120, 10] fmt_state.init [Arg.int pc] (by decide) []
        { might_format := true, min_width := -1, padding := PAD_NONE, length_mod := 0 }
        [Arg.int pc] (by simp [z_vprintk_step, fmt_state.init]),
      z_vprintk_loop_directive false 120 [10]
        { might_format := true, min_width := -1, padding := PAD_NONE, length_mod := 0 }
        [Arg.int pc] (by decide) rfl (_printk_hex_ulong (to_uint pc) PAD_NONE (-1))
        { might_format := false, min_width := -1, padding := PAD_NONE, length_mod := 0 }
        [] rfl (by simp [directive, va_arg_int, fmt_state.done])]
    simp [emit_then, z_vprintk_loop, z_vprintk_step, fmt_state.init]
  have s2 : z_vprintk_loop false
      (37 :: 112 :: (cstr ", Faulting instruction address = 0x" ++ [37, 120, 10]))
      fmt_state.init [Arg.ptr thread, Arg.int pc] =
      some ((48 :: 120 :: _printk_hex_ulong (to_ulong false thread) PAD_ZERO_BEFORE 8) ++
        (cstr ", Faulting instruction address = 0x" ++
          (_printk_hex_ulong (to_uint pc) PAD_NONE (-1) ++ [10]))) := by
    rw [z_vprintk_loop_cons false 37 _ fmt_state.init [Arg.ptr thread, Arg.int pc] (by decide) []
        { might_format := true, min_width := -1, padding := PAD_NONE, length_mod := 0 }
        [Arg.ptr thread, Arg.int pc] (by simp [z_vprintk_step, fmt_state.init]),
      z_vprintk_loop_directive false 112 _
        { might_format := true, min_width := -1, padding := PAD_NONE, length_mod := 0 }
        [Arg.ptr thread, Arg.int pc] (by decide) rfl
        (48 :: 120 :: _printk_hex_ulong (to_ulong false thread) PAD_ZERO_BEFORE 8)
        { might_format := false, min_width := 8, padding := PAD_ZERO_BEFORE, length_mod := 0 }
        [Arg.int pc] rfl (by simp [directive, va_arg_ptr, fmt_state.done]),
      z_vprintk_loop_append false (cstr ", Faulting instruction address = 0x") [37, 120, 10]
        fmt_state.init [Arg.int pc] (cstr ", Faulting instruction address = 0x")
        fmt_state.init [Arg.int pc] (by decide) r2, s1]
    rfl
  unfold fatal_context_line
  rw [printk_eq, e]
  unfold z_vprintk
  rw [z_vprintk_loop_append false (cstr "Current thread ID = ") _ fmt_state.init
      [Arg.ptr thread, Arg.int pc] (cstr "Current thread ID = ") fmt_state.init
      [Arg.ptr thread, Arg.int pc] (by decide) r1, s2]
  simp [emit_then]

theorem fatal_handler_eq (cfg : fatal_config) (reason thread pc : Nat) (f : List Int)
    (a : va_list) (o : List Int) (h1 : fatal_banner cfg reason = (f, a))
    (h2 : printk false f a = some o) :
    z_NanoFatalErrorHandler cfg reason thread pc = fatal_output o thread pc := by
  unfold z_NanoFatalErrorHandler fatal_output
  rw [h1]
  simp only []
  rw [h2, fatal_context_line_eq]
  rfl

theorem fatal_banner_cases (cfg : fatal_config) (reason : Nat)
    (hcfg : cfg.labels_distinct) :
    (30 ≤ reason ∧ reason ≤ 37 →
      fatal_banner cfg reason = (cstr "***** Hardware exception USAGE Fault *****\n", [])) ∧
    (10 ≤ reason ∧ reason ≤ 15 →
      fatal_banner cfg reason = (cstr "***** Hardware exception MPU Fault *****\n", [])) ∧
    ((20 ≤ reason ∧ reason ≤ 25) ∨ reason = cfg.bus_impreciserr →
      fatal_banner cfg reason = (cstr "***** Hardware exception BUS Fault *****\n", [])) ∧
    (reason = 0 → fatal_banner cfg reason = (cstr "***** Hardware exception *****\n", [])) ∧
    (reason = 40 →
      fatal_banner cfg reason = (cstr "***** Hardware exception SECURE Fault *****\n", [])) ∧
    (reason = 3 →
      fatal_banner cfg reason = (cstr "**** Kernel Allocation Failure! ****\n", [])) ∧
    (reason = 4 → fatal_banner cfg reason = (cstr "***** Kernel OOPS! *****\n", [])) ∧
    (reason = 5 → fatal_banner cfg reason = (cstr "***** Kernel Panic! *****\n", [])) := by
  unfold fatal_config.labels_distinct at hcfg
  have e_mpu : (reason = 10 ∨ reason = 11 ∨ reason = 12 ∨ reason = 13 ∨ reason = 14 ∨
      reason = 15) = (10 ≤ reason ∧ reason ≤ 15) := propext (by omega)
  have e_bus : (reason = 20 ∨ reason = 21 ∨ reason = 22 ∨ reason = 23 ∨
      reason = cfg.bus_impreciserr ∨ reason = 24 ∨ reason = 25) =
      ((20 ≤ reason ∧ reason ≤ 25) ∨ reason = cfg.bus_impreciserr) := propext (by omega)
  have e_usage : (reason = 30 ∨ reason = 31 ∨ reason = 32 ∨ reason = 33 ∨ reason = 34 ∨
      reason = 35 ∨ reason = 36 ∨ reason = 37) = (30 ≤ reason ∧ reason ≤ 37) :=
    propext (by omega)
  simp only [fatal_banner, _NANO_ERR_HW_EXCEPTION, _NANO_ERR_STACK_CHK_FAIL,
    _NANO_ERR_ALLOCATION_FAIL, _NANO_ERR_KERNEL_OOPS, _NANO_ERR_KERNEL_PANIC,
    _NANO_ERR_HW_MPU_FAULT, _NANO_ERR_HW_MPU_MSTKERR, _NANO_ERR_HW_MPU_MUNSTKERR,
    _NANO_ERR_HW_MPU_DACCVIOL, _NANO_ERR_HW_MPU_IACCVIOL, _NANO_ERR_HW_MPU_MLSPERR,
    _NANO_ERR_HW_BUS_FAULT, _NANO_ERR_HW_BUS_STKERR, _NANO_ERR_HW_BUS_UNSTKERR,
    _NANO_ERR_HW_BUS_PRECISERR, _NANO_ERR_HW_BUS_IBUSERR, _NANO_ERR_HW_BUS_LSPERR,
    _NANO_ERR_HW_USAGE_FAULT, _NANO_ERR_HW_USAGE_DIVBYZERO, _NANO_ERR_HW_USAGE_UNALIGNED,
    _NANO_ERR_HW_USAGE_STKOF, _NANO_ERR_HW_USAGE_NOCP, _NANO_ERR_HW_USAGE_INVPC,
    _NANO_ERR_HW_USAGE_INVSTATE, _NANO_ERR_HW_USAGE_UNDEFINSTR,
    _NANO_ERR_HW_SECURE_FAULT, e_mpu, e_bus, e_usage]
  refine ⟨?_, ?_, ?_, ?_, ?_, ?_, ?_, ?_⟩ <;> intro h
  · have n0 : ¬ reason = 0 := by omega
    have n1 : ¬ (10 ≤ reason ∧ reason ≤ 15) := by omega
    have n2 : ¬ ((20 ≤ reason ∧ reason ≤ 25) ∨ reason = cfg.bus_impreciserr) := by omega
    rw [if_neg n0, if_neg n1, if_neg n2, if_pos h]
  · have n0 : ¬ reason = 0 := by omega
    rw [if_neg n0, if_pos h]
  · have n0 : ¬ reason = 0 := by omega
    have n1 : ¬ (10 ≤ reason ∧ reason ≤ 15) := by omega
    rw [if_neg n0, if_neg n1, if_pos h]
  · rw [if_pos h]
  · have n0 : ¬ reason = 0 := by omega
    have n1 : ¬ (10 ≤ reason ∧ reason ≤ 15) := by omega
    have n2 : ¬ ((20 ≤ reason ∧ reason ≤ 25) ∨ reason = cfg.bus_impreciserr) := by omega
    have n3 : ¬ (30 ≤ reason ∧ reason ≤ 37) := by omega
    rw [if_neg n0, if_neg n1, if_neg n2, if_neg n3, if_pos h]
  · have n0 : ¬ reason = 0 := by omega
    have n1 : ¬ (10 ≤ reason ∧ reason ≤ 15) := by omega
    have n2 : ¬ ((20 ≤ reason ∧ reason ≤ 25) ∨ reason = cfg.bus_impreciserr) := by omega
    have n3 : ¬ (30 ≤ reason ∧ reason ≤ 37) := by omega
    have n4 : ¬ reason = 40 := by omega
    have n5 : ¬ (cfg.stack_check = true ∧ reason = 2) := by omega
    rw [if_neg n0, if_neg n1, if_neg n2, if_neg n3, if_neg n4, if_neg n5, if_pos h]
  · have n0 : ¬ reason = 0 := by omega
    have n1 : ¬ (10 ≤ reason ∧ reason ≤ 15) := by omega
    have n2 : ¬ ((20 ≤ reason ∧ reason ≤ 25) ∨ reason = cfg.bus_impreciserr) := by omega
    have n3 : ¬ (30 ≤ reason ∧ reason ≤ 37) := by omega
    have n4 : ¬ reason = 40 := by omega
    have n5 : ¬ (cfg.stack_check = true ∧ reason = 2) := by omega
    have n6 : ¬ reason = 3 := by omega
    rw [if_neg n0, if_neg n1, if_neg n2, if_neg n3, if_neg n4, if_neg n5, if_neg n6, if_pos h]
  · have n0 : ¬ reason = 0 := by omega
    have n1 : ¬ (10 ≤ reason ∧ reason ≤ 15) := by omega
    have n2 : ¬ ((20 ≤ reason ∧ reason ≤ 25) ∨ reason = cfg.bus_impreciserr) := by omega
    have n3 : ¬ (30 ≤ reason ∧ reason ≤ 37) := by omega
    have n4 : ¬ reason = 40 := by omega
    have n5 : ¬ (cfg.stack_check = true ∧ reason = 2) := by omega
    have n6 : ¬ reason = 3 := by omega
    have n7 : ¬ reason = 4 := by omega
    rw [if_neg n0, if_neg n1, if_neg n2, if_neg n3, if_neg n4, if_neg n5, if_neg n6,
      if_neg n7, if_pos h]

/-- C15: the handler selects its banner by the family of the fault reason:
30..37 print the USAGE Fault banner, 10..15 the MPU Fault banner, the bus
fault reasons the BUS Fault banner, 0 the Hardware exception banner, 40 the
SECURE Fault banner, 3, 4 and 5 the Kernel Allocation Failure, Kernel OOPS and
Kernel Panic banners; each is followed by the line about the thread and the
faulting instruction. -/
theorem fatal_banner_family (cfg : fatal_config) (reason thread pc : Nat)
    (hcfg : cfg.labels_distinct) :
    (30 ≤ reason ∧ reason ≤ 37 → z_NanoFatalErrorHandler cfg reason thread pc =
      fatal_output (cstr "***** Hardware exception USAGE Fault *****\n") thread pc) ∧
    (10 ≤ reason ∧ reason ≤ 15 → z_NanoFatalErrorHandler cfg reason thread pc =
      fatal_output (cstr "***** Hardware exception MPU Fault *****\n") thread pc) ∧
    ((20 ≤ reason ∧ reason ≤ 25) ∨ reason = cfg.bus_impreciserr →
      z_NanoFatalErrorHandler cfg reason thread pc =
      fatal_output (cstr "***** Hardware exception BUS Fault *****\n") thread pc) ∧
    (reason = 0 → z_NanoFatalErrorHandler cfg reason thread pc =
      fatal_output (cstr "***** Hardware exception *****\n") thread pc) ∧
    (reason = 40 → z_NanoFatalErrorHandler cfg reason thread pc =
      fatal_output (cstr "***** Hardware exception SECURE Fault *****\n") thread pc) ∧
    (reason = 3 → z_NanoFatalErrorHandler cfg reason thread pc =
      fatal_output (cstr "**** Kernel Allocation Failure! ****\n") thread pc) ∧
    (reason = 4 → z_NanoFatalErrorHandler cfg reason thread pc =
      fatal_output (cstr "***** Kernel OOPS! *****\n") thread pc) ∧
    (reason = 5 → z_NanoFatalErrorHandler cfg reason thread pc =
      fatal_output (cstr "***** Kernel Panic! *****\n") thread pc) := by
  obtain ⟨h1, h2, h3, h4, h5, h6, h7, h8⟩ := fatal_banner_cases cfg reason hcfg
  refine ⟨?_, ?_, ?_, ?_, ?_, ?_, ?_, ?_⟩ <;> intro h
  · exact fatal_handler_eq cfg reason thread pc _ _ _ (h1 h) (by decide)
  · exact fatal_handler_eq cfg reason thread pc _ _ _ (h2 h) (by decide)
  · exact fatal_handler_eq cfg reason thread pc _ _ _ (h3 h) (by decide)
  · exact fatal_handler_eq cfg reason thread pc _ _ _ (h4 h) (by decide)
  · exact fatal_handler_eq cfg reason thread pc _ _ _ (h5 h) (by decide)
  · exact fatal_handler_eq cfg reason thread pc _ _ _ (h6 h) (by decide)
  · exact fatal_handler_eq cfg reason thread pc _ _ _ (h7 h) (by decide)
  · exact fatal_handler_eq cfg reason thread pc _ _ _ (h8 h) (by decide)

/-- C15, witness: reason 31, divide by zero, prints the USAGE Fault banner. -/
theorem fatal_banner_family_witness :
    z_NanoFatalErrorHandler { stack_check := true, bus_impreciserr := 26 } 31 536871168
        134218019 =
      some (cstr ("***** Hardware exception USAGE Fault *****\n" ++
        "Current thread ID = 0x20000100, Faulting instruction address = 0x8000123\n")) := by
  have h := (fatal_banner_family { stack_check := true, bus_impreciserr := 26 } 31 536871168
    134218019 (by unfold fatal_config.labels_distinct; decide)).1 (by decide)
  rw [h]
  decide

theorem dec_ulong_no_width (v : Nat) (w : Int) (hv : v < 10 ^ 10) (hw : w ≤ 1) :
    _printk_dec_ulong v PAD_NONE w = dec_repr v := by
  rw [dec_ulong_eq v hv]
  have hpos := dec_repr_length_pos v
  have hw1 : (dec_width w).toNat = 1 := by
    unfold dec_width
    split_ifs <;> omega
  have h0 : min 10 (dec_width w).toNat - (dec_repr v).length = 0 := by omega
  rw [h0]
  simp

/-- The default case of the handler: the reason is printed with `%d`, as an
`int`. -/
theorem fatal_unknown_eq (cfg : fatal_config) (reason thread pc : Nat)
    (hun : ¬ fatal_handled cfg reason) (hr : reason < 2 ^ 32) :
    z_NanoFatalErrorHandler cfg reason thread pc =
      fatal_output (cstr "**** Unknown Fatal Error " ++
        (if reason < 2 ^ 31 then dec_repr reason else 45 :: dec_repr (2 ^ 32 - reason)) ++
        cstr "! ****\n") thread pc := by
  unfold fatal_handled at hun
  simp only [not_or] at hun
  obtain ⟨u0, u1, u2, u3, u4, u5, u6, u7, u8, u9⟩ := hun
  have hb : fatal_banner cfg reason =
      (cstr "**** Unknown Fatal Error %d! ****\n", [Arg.int reason]) := by
    have e_mpu : (reason = 10 ∨ reason = 11 ∨ reason = 12 ∨ reason = 13 ∨ reason = 14 ∨
        reason = 15) = (10 ≤ reason ∧ reason ≤ 15) := propext (by omega)
    have e_bus : (reason = 20 ∨ reason = 21 ∨ reason = 22 ∨ reason = 23 ∨
        reason = cfg.bus_impreciserr ∨ reason = 24 ∨ reason = 25) =
        ((20 ≤ reason ∧ reason ≤ 25) ∨ reason = cfg.bus_impreciserr) := propext (by omega)
    have e_usage : (reason = 30 ∨ reason = 31 ∨ reason = 32 ∨ reason = 33 ∨ reason = 34 ∨
        reason = 35 ∨ reason = 36 ∨ reason = 37) = (30 ≤ reason ∧ reason ≤ 37) :=
      propext (by omega)
    simp only [fatal_banner, _NANO_ERR_HW_EXCEPTION, _NANO_ERR_STACK_CHK_FAIL,
      _NANO_ERR_ALLOCATION_FAIL, _NANO_ERR_KERNEL_OOPS, _NANO_ERR_KERNEL_PANIC,
      _NANO_ERR_HW_MPU_FAULT, _NANO_ERR_HW_MPU_MSTKERR, _NANO_ERR_HW_MPU_MUNSTKERR,
      _NANO_ERR_HW_MPU_DACCVIOL, _NANO_ERR_HW_MPU_IACCVIOL, _NANO_ERR_HW_MPU_MLSPERR,
      _NANO_ERR_HW_BUS_FAULT, _NANO_ERR_HW_BUS_STKERR, _NANO_ERR_HW_BUS_UNSTKERR,
      _NANO_ERR_HW_BUS_PRECISERR, _NANO_ERR_HW_BUS_IBUSERR, _NANO_ERR_HW_BUS_LSPERR,
      _NANO_ERR_HW_USAGE_FAULT, _NANO_ERR_HW_USAGE_DIVBYZERO, _NANO_ERR_HW_USAGE_UNALIGNED,
      _NANO_ERR_HW_USAGE_STKOF, _NANO_ERR_HW_USAGE_NOCP, _NANO_ERR_HW_USAGE_INVPC,
      _NANO_ERR_HW_USAGE_INVSTATE, _NANO_ERR_HW_USAGE_UNDEFINSTR,
      _NANO_ERR_HW_SECURE_FAULT, e_mpu, e_bus, e_usage]
    have n2 : ¬ ((20 ≤ reason ∧ reason ≤ 25) ∨ reason = cfg.bus_impreciserr) := by omega
    rw [if_neg u0, if_neg u1, if_neg n2, if_neg u4, if_neg u5, if_neg u6, if_neg u7,
      if_neg u8, if_neg u9]
  have hdec : (signed_dec false
      { might_format := true, min_width := -1, padding := PAD_NONE, length_mod := 0 }
      (to_int reason)).1 =
      (if reason < 2 ^ 31 then dec_repr reason else 45 :: dec_repr (2 ^ 32 - reason)) := by
    by_cases hlt : reason < 2 ^ 31
    · rw [if_pos hlt, to_int_of_lt reason hlt, signed_dec_nonneg false _ _ (by omega),
        to_ulong_nat false reason hr]
      exact dec_ulong_no_width reason (-1) (by omega) (by decide)
    · have hti : to_int reason = -((2 ^ 32 - reason : Nat) : Int) := by
        unfold to_int
        omega
      have hul : to_ulong false (-to_int (reason : Int)) = 2 ^ 32 - reason := by
        rw [hti, neg_neg]
        exact to_ulong_nat false _ (by omega)
      rw [if_neg hlt, signed_dec_neg false _ _ (by rw [hti]; omega), hul]
      exact congrArg (List.cons 45) (dec_ulong_no_width _ (-1 - 1) (by omega) (by decide))
  have e : cstr "**** Unknown Fatal Error %d! ****\n" =
      cstr "**** Unknown Fatal Error " ++ (37 :: 100 :: cstr "! ****\n") := by decide
  have r1 : z_vprintk_run false (cstr "**** Unknown Fatal Error ") fmt_state.init
      [Arg.int reason] =
      some (cstr "**** Unknown Fatal Error ", fmt_state.init, [Arg.int reason]) := rfl
  have r2 : z_vprintk_loop false (cstr "! ****\n") fmt_state.init [] =
      some (cstr "! ****\n") := by decide
  have hp : printk false (cstr "**** Unknown Fatal Error %d! ****\n") [Arg.int reason] =
      some (cstr "**** Unknown Fatal Error " ++
        (if reason < 2 ^ 31 then dec_repr reason else 45 :: dec_repr (2 ^ 32 - reason)) ++
        cstr "! ****\n") := by
    rw [printk_eq, e]
    unfold z_vprintk
    rw [z_vprintk_loop_append false (cstr "**** Unknown Fatal Error ") _ fmt_state.init
        [Arg.int reason] (cstr "**** Unknown Fatal Error ") fmt_state.init
        [Arg.int reason] (by decide) r1,
      z_vprintk_loop_cons false 37 _ fmt_state.init [Arg.int reason] (by decide) []
        { might_format := true, min_width := -1, padding := PAD_NONE, length_mod := 0 }
        [Arg.int reason] (by simp [z_vprintk_step, fmt_state.init]),
      z_vprintk_loop_directive false 100 (cstr "! ****\n")
        { might_format := true, min_width := -1, padding := PAD_NONE, length_mod := 0 }
        [Arg.int reason] (by decide) rfl
        (signed_dec false
          { might_format := true, min_width := -1, padding := PAD_NONE, length_mod := 0 }
          (to_int reason)).1
        (signed_dec false
          { might_format := true, min_width := -1, padding := PAD_NONE, length_mod := 0 }
          (to_int reason)).2
        [] (signed_dec_done _ _ _) (by simp [directive, va_arg_int]),
      r2, hdec]
    simp [emit_then]
  exact fatal_handler_eq cfg reason thread pc _ _ _ hb hp

/-- C16, the code at the failing input: the reason 4294967295, a value of
`unsigned int` without a case, is printed as `-1`, while 999 is printed as
`999`. -/
theorem fatal_unknown_fails :
    z_NanoFatalErrorHandler { stack_check := true, bus_impreciserr := 26 } 4294967295
        536871168 134218019 =
      fatal_output (cstr "**** Unknown Fatal Error -1! ****\n") 536871168 134218019 ∧
    z_NanoFatalErrorHandler { stack_check := true, bus_impreciserr := 26 } 999
        536871168 134218019 =
      fatal_output (cstr "**** Unknown Fatal Error 999! ****\n") 536871168 134218019 := by
  decide

/-! ## Theorems: the invariant of the buffered output context -/

theorem buf_run_snoc (size : Nat) (l : List Int) (c : Int) :
    buf_run size (l ++ [c]) = buf_char_out size c (buf_run size l) := by
  simp [buf_run, List.foldl_append]

theorem buf_inv_run (size : Nat) (l : List Int) (hsize : 1 ≤ size) :
    buf_inv size l (buf_run size l) := by
  have hinit : buf_inv size [] buf_state.init := by
    refine ⟨rfl, ?_, by simp [buf_state.init, z_impl_k_str_out], by simp [buf_state.init]⟩
    simp only [buf_state.init]
    omega
  have h := buf_inv_foldl size l [] buf_state.init hinit
  rw [List.nil_append] at h
  exact h

/-- The only element of the array that `buf_char_out` stores to is the one at
the index `buf_count`. -/
theorem buf_char_out_store (size : Nat) (c : Int) (s : buf_state) (i : Nat)
    (hi : i ≠ s.ctx.buf_count) : (buf_char_out size c s).ctx.buf i = s.ctx.buf i := by
  unfold buf_char_out
  simp only []
  split_ifs <;> simp only [buf_flush] <;> exact Function.update_noteq hi _ _

/-- No call of `buf_char_out` stores at or beyond the capacity. -/
theorem buf_run_frame (size : Nat) (hsize : 1 ≤ size) (l : List Int) :
    ∀ i, size ≤ i → (buf_run size l).ctx.buf i = 0 := by
  induction l using List.reverseRecOn with
  | nil => intro i _; rfl
  | append_singleton l c ih =>
    intro i hi
    have hb := (buf_inv_run size l hsize).2.1
    rw [buf_run_snoc, buf_char_out_store size c _ i (by omega)]
    exact ih i hi

/-- C21: from the zero-initialised context and for every capacity of at least
1, after every call of `buf_char_out`, and of `buf_flush`, the fill count is
below the capacity; the next call of `buf_char_out` stores at the index
`buf_count` only, inside the buffer, and nothing is ever stored at or beyond
the capacity; the length handed to `k_str_out`, by `buf_char_out` and by the
final flush of `vprintk`, is between 1 and the capacity. -/
theorem buf_count_invariant (size : Nat) (l : List Int) (hsize : 1 ≤ size) :
    (buf_run size l).ctx.buf_count < size ∧
    (buf_flush (buf_run size l)).ctx.buf_count < size ∧
    (∀ (c : Int) (i : Nat), i ≠ (buf_run size l).ctx.buf_count →
      (buf_char_out size c (buf_run size l)).ctx.buf i = (buf_run size l).ctx.buf i) ∧
    (∀ c, buf_run size (l ++ [c]) = buf_char_out size c (buf_run size l)) ∧
    (∀ i, size ≤ i → (buf_run size l).ctx.buf i = 0) ∧
    (∀ ch ∈ (buf_run size l).flushed, 1 ≤ ch.length ∧ ch.length ≤ size) ∧
    ((buf_run size l).ctx.buf_count ≠ 0 →
      ∀ ch ∈ (buf_flush (buf_run size l)).flushed, 1 ≤ ch.length ∧ ch.length ≤ size) ∧
    (∀ (c64 : Bool) (fmt : List Int) (ap : va_list), z_vprintk c64 fmt ap = some l →
      ∃ chunks, vprintk size c64 true fmt ap = some ((l.length : Int), chunks, chunks.flatten) ∧
        ∀ ch ∈ chunks, 1 ≤ ch.length ∧ ch.length ≤ size) := by
  obtain ⟨hc, hb, _, hl⟩ := buf_inv_run size l hsize
  have hfl : ∀ ch ∈ (buf_run size l).flushed, 1 ≤ ch.length ∧ ch.length ≤ size := by
    intro ch hch
    rw [hl ch hch]
    exact ⟨hsize, le_refl _⟩
  have hfinal : (buf_run size l).ctx.buf_count ≠ 0 →
      ∀ ch ∈ (buf_flush (buf_run size l)).flushed, 1 ≤ ch.length ∧ ch.length ≤ size := by
    intro h0 ch hch
    simp only [buf_flush, List.mem_append, List.mem_singleton] at hch
    rcases hch with hch | rfl
    · exact hfl ch hch
    · rw [z_impl_k_str_out_length]
      omega
  refine ⟨hb, ?_, ?_, buf_run_snoc size l, buf_run_frame size hsize l, hfl, hfinal, ?_⟩
  · simp only [buf_flush]
    omega
  · intro c i hi
    exact buf_char_out_store size c _ i hi
  · intro c64 fmt ap hfmt
    unfold vprintk
    rw [hfmt]
    simp only [if_true]
    change ∃ chunks, some ((if (buf_run size l).ctx.buf_count ≠ 0 then buf_flush (buf_run size l)
        else buf_run size l).ctx.count,
      (if (buf_run size l).ctx.buf_count ≠ 0 then buf_flush (buf_run size l)
        else buf_run size l).flushed,
      (if (buf_run size l).ctx.buf_count ≠ 0 then buf_flush (buf_run size l)
        else buf_run size l).flushed.flatten) = some ((l.length : Int), chunks, chunks.flatten) ∧
      ∀ ch ∈ chunks, 1 ≤ ch.length ∧ ch.length ≤ size
    by_cases h0 : (buf_run size l).ctx.buf_count ≠ 0
    · rw [if_pos h0]
      exact ⟨_, by simp [buf_flush, hc], hfinal h0⟩
    · rw [if_neg h0]
      exact ⟨_, by rw [hc], hfl⟩

/-- C21, witness: with a capacity of 4, after the eleven characters of
`"hello world"` the fill count is 3, the two chunks handed over so far have 4
characters, and the final flush hands over 3. -/
theorem buf_count_invariant_witness :
    (buf_run 4 (cstr "hello world")).ctx.buf_count = 3 ∧
    (buf_run 4 (cstr "hello world")).ctx.buf_count < 4 ∧
    (∀ ch ∈ (buf_run 4 (cstr "hello world")).flushed, 1 ≤ ch.length ∧ ch.length ≤ 4) ∧
    (buf_flush (buf_run 4 (cstr "hello world"))).flushed =
      [cstr "hell", cstr "o wo", cstr "rld"] := by
  have h := buf_count_invariant 4 (cstr "hello world") (by decide)
  exact ⟨by decide, h.1, h.2.2.2.2.2.1, by decide⟩

end Printk
